import Mathlib

/-!
Verification development for the adaptive directed-graph layout engine of the
flow-visualizer component (src/flow-visualizer/src/components/FlowVisualization.tsx
and src/flow-visualizer/src/utils/graphUtils.ts).

The engine is embedded shallowly:
  * graph data (nodes, edges) as Lean structures over String ids;
  * JavaScript plain objects used as dictionaries become association lists
    (insertion-ordered, keyed lookup), with JS quirks modelled explicitly:
    reading a missing key gives Option.none, incrementing or decrementing a
    missing numeric entry yields NaN (modelled as Option.none inside the value),
    and calling .push on a missing entry throws (modelled with Except);
  * layer assignment (the topological BFS in calculatePositions) as a fueled
    loop; fuel nodes.length + 2 is an upper bound on the number of while-loop
    iterations the source can perform, since every iteration either consumes at
    least one unvisited node or produces an empty next queue;
  * node placement arithmetic over the rationals (the source only adds,
    multiplies, divides, floors and ceils here, so Rat is exact);
  * edge routing over the reals, since it takes square roots.
-/

namespace FlowViz

/-- A graph node as consumed by the engine (id, label, type tag, description). -/
structure GraphNode where
  id : String
  label : String
  type : String
  description : String
deriving DecidableEq, Repr

/-- A graph edge (id, source node id, target node id, label, optional description). -/
structure GraphEdge where
  id : String
  source : String
  target : String
  label : String
  description : Option String
deriving DecidableEq, Repr

/-- The graph value the engine consumes. -/
structure GraphData where
  nodes : List GraphNode
  edges : List GraphEdge
deriving DecidableEq, Repr

/-- The canvas-size selector of the component. -/
inductive CanvasSize where
  | small
  | medium
  | large
  | auto
deriving DecidableEq, Repr

/-- Decidable equality of Except values, so concrete runs of the fallible
engine entry points can be checked by evaluation. -/
instance {e a : Type} [DecidableEq e] [DecidableEq a] : DecidableEq (Except e a) := fun x y =>
  match x, y with
  | .error e1, .error e2 =>
    if h : e1 = e2 then .isTrue (by rw [h]) else .isFalse (by intro hh; cases hh; exact h rfl)
  | .error _, .ok _ => .isFalse (by intro hh; cases hh)
  | .ok _, .error _ => .isFalse (by intro hh; cases hh)
  | .ok v1, .ok v2 =>
    if h : v1 = v2 then .isTrue (by rw [h]) else .isFalse (by intro hh; cases hh; exact h rfl)

/-- Keyed lookup in an association list: JS object property read. -/
def alookup {α : Type} (m : List (String × α)) (k : String) : Option α :=
  match m with
  | [] => Option.none
  | (k1, v) :: rest => if k1 = k then some v else alookup rest k

/-- Keyed update in an association list: JS object property write
(overwrites an existing key, otherwise appends). -/
def aset {α : Type} (m : List (String × α)) (k : String) (v : α) : List (String × α) :=
  match m with
  | [] => [(k, v)]
  | (k1, v1) :: rest => if k1 = k then (k, v) :: rest else (k1, v1) :: aset rest k v

/-- graphUtils.ts getNodeSize: base radius by node type. The source works in
JS numbers; every value here is integral, so the rationals are exact. -/
def getNodeSize (type : String) : ℚ :=
  if type = "start" ∨ type = "end" then 35
  else if type = "decision" ∨ type = "validation" then 30
  else 28

/-- The size multiplier the component derives from the canvas-size selector
(0.8 for small, 1.2 for large, 1.0 otherwise), as a rational. -/
def sizeMultiplierQ (cs : CanvasSize) : ℚ :=
  match cs with
  | .small => 8/10
  | .large => 12/10
  | _ => 1

/-- Adjacency map: node id to successor-id list (JS adjacencyList object). -/
abbrev Adj : Type := List (String × List String)

/-- In-degree map: node id to either a number or NaN (JS inDegree object;
Option.none inside the value models NaN, produced by incrementing or
decrementing a key that was never initialised). -/
abbrev Deg : Type := List (String × Option ℤ)

/-- One step of the edge loop that builds adjacencyList and inDegree.
Mirrors
  adjacencyList[edge.source].push(edge.target);
  inDegree[edge.target]++;
Reading adjacencyList at a source id that was never initialised gives
undefined, and undefined.push throws a TypeError: modelled as Except.error.
Incrementing inDegree at a missing key stores NaN (Option.none). -/
def addEdge (maps : Adj × Deg) (e : GraphEdge) : Except Unit (Adj × Deg) :=
  match alookup maps.1 e.source with
  | Option.none => .error ()
  | some succs =>
    let adj := aset maps.1 e.source (succs ++ [e.target])
    let deg :=
      match alookup maps.2 e.target with
      | some (some k) => aset maps.2 e.target (some (k + 1))
      | some Option.none => maps.2
      | Option.none => aset maps.2 e.target Option.none
    .ok (adj, deg)

/-- The node loop that initialises both maps:
  inDegree[node.id] = 0; adjacencyList[node.id] = []. -/
def initMaps (nodes : List GraphNode) : Adj × Deg :=
  nodes.foldl (fun m n => (aset m.1 n.id [], aset m.2 n.id (some 0))) ([], [])

/-- Builds adjacencyList and inDegree exactly as the source does (the source
writes this block twice, once in getCanvasDimensions for the auto branch and
once in calculatePositions; both copies are identical). Fails exactly when an
edge names a source id absent from the node set. -/
def buildMaps (data : GraphData) : Except Unit (Adj × Deg) :=
  data.edges.foldlM addEdge (initMaps data.nodes)

/-- The auto branch of getCanvasDimensions: dimensions from the node count
alone. estimatedLayers is max(1, ceil(nodeCount / 3)); width is
max(800, estimatedLayers * 220 + 400); maxNodesInLayer is
min(ceil(nodeCount / max(estimatedLayers, 1)), 6); height is
max(400, maxNodesInLayer * 120 + 200). -/
def autoDims (nodeCount : ℕ) : ℚ × ℚ :=
  let estimatedLayers := max 1 ((nodeCount + 2) / 3)
  let baseWidth : ℚ := max 800 ((estimatedLayers : ℚ) * 220 + 400)
  let maxNodesInLayer :=
    min ((nodeCount + (max estimatedLayers 1) - 1) / max estimatedLayers 1) 6
  let baseHeight : ℚ := max 400 ((maxNodesInLayer : ℚ) * 120 + 200)
  (baseWidth, baseHeight)

/-- getCanvasDimensions: fixed presets for small/medium/large; the auto branch
first rebuilds the adjacency maps (so it throws on an edge with a missing
source id, like the source does) and then sizes from the node count. -/
def getCanvasDimensions (data : GraphData) (cs : CanvasSize) : Except Unit (ℚ × ℚ) :=
  match cs with
  | .small => .ok (600, 400)
  | .medium => .ok (900, 600)
  | .large => .ok (1200, 800)
  | .auto =>
    match buildMaps data with
    | .error u => .error u
    | .ok _ => .ok (autoDims data.nodes.length)

/-- The seed queue of the topological sort in calculatePositions:
exactly the nodes whose type tag is start (no in-degree fallback). -/
def startQueue (data : GraphData) : List String :=
  (data.nodes.filter (fun n => n.type = "start")).map (fun n => n.id)

/-- State threaded through one round of the BFS while-loop. -/
structure BfsState where
  layer : List String
  nextQ : List String
  visited : List String
  deg : Deg

/-- currentInDegree[childId]--  with JS semantics: a numeric entry is
decremented, NaN stays NaN, a missing entry becomes NaN. -/
def decDeg (deg : Deg) (child : String) : Deg :=
  match alookup deg child with
  | some (some k) => aset deg child (some (k - 1))
  | some Option.none => deg
  | Option.none => aset deg child Option.none

/-- The body of the successor forEach: decrement the in-degree of the child,
then promote it into the next queue when the decremented value is exactly 0
and the child is neither visited nor already queued. -/
def promoteFold (visited : List String) (acc : List String × Deg) (child : String) :
    List String × Deg :=
  let deg1 := decDeg acc.2 child
  let nq1 :=
    if alookup deg1 child = some (some 0) ∧ child ∉ visited ∧ child ∉ acc.1
    then acc.1 ++ [child] else acc.1
  (nq1, deg1)

/-- Processing one queue entry inside a round: skip it if already visited,
otherwise append it to the layer, mark it visited, and run the successor
forEach. Reading adjacencyList at an id without an entry is modelled as the
empty successor list (such ids never reach the queue when the maps come from
buildMaps). -/
def processNode (adj : Adj) (st : BfsState) (nodeId : String) : BfsState :=
  if nodeId ∈ st.visited then st
  else
    let visited1 := st.visited ++ [nodeId]
    let succs := (alookup adj nodeId).getD []
    let p := succs.foldl (promoteFold visited1) (st.nextQ, st.deg)
    ⟨st.layer ++ [nodeId], p.1, visited1, p.2⟩

/-- One full round of the while-loop: consume the whole queue. -/
def processRound (adj : Adj) (queue visited : List String) (deg : Deg) : BfsState :=
  queue.foldl (processNode adj) ⟨[], [], visited, deg⟩

/-- The while-loop of the topological sort, fueled. Returns the produced
layers together with the final visited list. Every iteration of the source
loop either visits at least one fresh node id (of which there are at most
nodes.length) or produces an empty next queue, so nodes.length + 2 units of
fuel are never exhausted when called from assignLayers. -/
def bfsLoop (adj : Adj) (fuel : ℕ) (queue visited : List String) (deg : Deg) :
    List (List String) × List String :=
  match fuel with
  | 0 => ([], visited)
  | fuel + 1 =>
    if queue.isEmpty then ([], visited)
    else
      let st := processRound adj queue visited deg
      let r := bfsLoop adj fuel st.nextQ st.visited st.deg
      (if st.layer.isEmpty then r.1 else st.layer :: r.1, r.2)

/-- The BFS part of layer assignment (the layers produced by the while-loop)
together with the final visited list. -/
def bfsLayersAndVisited (data : GraphData) (adj : Adj) (deg : Deg) :
    List (List String) × List String :=
  bfsLoop adj (data.nodes.length + 2) (startQueue data) [] deg

/-- Full layer assignment: the BFS layers, then every never-visited node
collected into one trailing layer in original input order (only when at least
one node was never visited). -/
def assignLayers (data : GraphData) (adj : Adj) (deg : Deg) : List (List String) :=
  let lv := bfsLayersAndVisited data adj deg
  let unvisited := data.nodes.filter (fun n => n.id ∉ lv.2)
  if unvisited.isEmpty then lv.1 else lv.1 ++ [unvisited.map (fun n => n.id)]

/-- Layer assignment run from raw graph data: builds the maps (which can
throw), then assigns layers. -/
def assignLayersE (data : GraphData) : Except Unit (List (List String)) :=
  match buildMaps data with
  | .error u => .error u
  | .ok md => .ok (assignLayers data md.1 md.2)

/-- The BFS layers run from raw graph data (no trailing catch-all layer). -/
def bfsLayersE (data : GraphData) : Except Unit (List (List String)) :=
  match buildMaps data with
  | .error u => .error u
  | .ok md => .ok (bfsLayersAndVisited data md.1 md.2).1

/-- The positions object: node id to (x, y). -/
abbrev PosMap : Type := List (String × (ℚ × ℚ))

/-- The mutable state of the layer forEach in calculatePositions. -/
structure PlaceState where
  currentX : ℚ
  positions : PosMap

/-- Stable insertion into an ascending list: the new element goes after every
element that compares less-or-equal to it. -/
def insertAsc {a : Type} (le : a → a → Bool) (x : a) : List a → List a
  | [] => [x]
  | y :: ys => if le y x then y :: insertAsc le x ys else x :: y :: ys

/-- The stable ascending sort that Array.prototype.sort guarantees for a
consistent three-way comparator (ES2019 and later: sort is stable): elements
in nondecreasing order, ties kept in original order. A stable sort by a total
preorder is unique as a function, so stable insertion sort (structurally
recursive, hence evaluable inside proofs) computes it. -/
def jsSort {a : Type} (le : a → a → Bool) (l : List a) : List a :=
  l.foldl (fun acc x => insertAsc le x acc) []

/-- The average-predecessor-y helper of the crossing-reduction sort: the mean
y of the already-placed predecessors of a node, or centerY when none are
placed. -/
def avgPredY (data : GraphData) (positions : PosMap) (centerY : ℚ) (nodeId : String) : ℚ :=
  let preds := ((data.edges.filter (fun e => e.target = nodeId)).map
      (fun e => alookup positions e.source)).filterMap id
  if preds.length = 0 then centerY
  else (preds.foldl (fun s p => s + p.2) 0) / (preds.length : ℚ)

/-- The adaptive density cap (maxNodesPerCol): derived from the available
height (canvas height minus both margins) and the canvas-size selector only.
nodeSize = 40 and minVerticalSpacing = 20 in the source. -/
def maxNodesPerColOf (cs : CanvasSize) (availableHeight : ℚ) : ℕ :=
  let maxVerticalNodes := (⌊availableHeight / (40 + 20)⌋).toNat
  let m := sizeMultiplierQ cs
  match cs with
  | .small => min maxVerticalNodes (max 2 (⌈(3 : ℚ) * m⌉).toNat)
  | .large => min maxVerticalNodes (max 3 (⌈(5 : ℚ) * m⌉).toNat)
  | _ => min maxVerticalNodes (max 2 (⌈(4 : ℚ) * m⌉).toNat)

/-- Width between layer columns, lower bound (canvas-size dependent). -/
def minLayerWidthOf (cs : CanvasSize) : ℚ := if cs = .small then 120 else 150

/-- Width between layer columns, upper bound (canvas-size dependent). -/
def maxLayerWidthOf (cs : CanvasSize) : ℚ :=
  if cs = .small then 200 else if cs = .large then 250 else 220

/-- Vertical spacing between nodes, lower bound (canvas-size dependent). -/
def minNodeSpacingOf (cs : CanvasSize) : ℚ := if cs = .small then 80 else 100

/-- Vertical spacing between nodes, upper bound (canvas-size dependent). -/
def maxNodeSpacingOf (cs : CanvasSize) : ℚ :=
  if cs = .small then 150 else if cs = .large then 200 else 180

/-- Placing the nodes of one sub-column: a single node uses the
layer-position formula, several nodes are spread around the vertical center
with adaptive spacing. layerIndex and L (= layers.length) drive the
single-node vertical position. -/
def placeColumn (margin centerY availableHeight optimalNodeSpacing x : ℚ)
    (layerIndex L : ℕ) (colNodes : List String) (pos : PosMap) : PosMap :=
  match colNodes with
  | [n] =>
    let y :=
      if layerIndex = 0 then centerY
      else if (layerIndex : ℚ) < (L : ℚ) / 2 then
        centerY - (L : ℚ) * 30 + (layerIndex : ℚ) * 60
      else centerY + ((layerIndex : ℚ) - (L : ℚ) / 2) * 60
    aset pos n (x, y)
  | _ =>
    let len : ℚ := colNodes.length
    let actualNodeSpacing :=
      max (optimalNodeSpacing * (8/10))
        (min (optimalNodeSpacing * (15/10)) (availableHeight / max (len + 1) 3))
    let verticalRange := availableHeight * (7/10)
    let effectiveSpacing := min actualNodeSpacing (verticalRange / max (len - 1) 1)
    let startY := margin + (availableHeight - (len - 1) * effectiveSpacing) / 2
    (colNodes.enum).foldl
      (fun p pr => aset p pr.2 (x, startY + (pr.1 : ℚ) * effectiveSpacing)) pos

/-- optimalLayerWidth: the per-layer horizontal extent, clamped between the
canvas-size-dependent bounds. -/
def optimalLayerWidthOf (cs : CanvasSize) (L : ℕ) (availableWidth : ℚ) : ℚ :=
  max (minLayerWidthOf cs) (min (maxLayerWidthOf cs) (availableWidth / ((max L 1 : ℕ) : ℚ)))

/-- The adaptive layer-spacing advance of currentX at the end of the layer
body: unchanged for the last layer, otherwise the remaining usable width is
spread over the remaining layers, clamped between minLayerWidth and
1.2 times maxLayerWidth. -/
def layerAdvanceX (cs : CanvasSize) (L layerIndex : ℕ) (availableWidth currentX : ℚ) : ℚ :=
  if layerIndex = L - 1 then currentX
  else
    let margin : ℚ := 60
    let remainingLayers := L - layerIndex - 1
    let reservedRightMargin : ℚ := 80
    let usableWidth := availableWidth - reservedRightMargin
    let remainingWidth := usableWidth - (currentX - margin)
    let optimalSpacing :=
      if 0 < remainingLayers then
        max (minLayerWidthOf cs) (remainingWidth / (remainingLayers : ℚ))
      else optimalLayerWidthOf cs L availableWidth
    let actualSpacing :=
      max (minLayerWidthOf cs) (min optimalSpacing (maxLayerWidthOf cs * (12/10)))
    currentX + actualSpacing

/-- The placement of one layer into the positions object: sort the layer by
mean predecessor y (stable, ascending) when past the first layer, split it
into sub-columns of at most the density cap, and place each column at
currentX plus the 0.8-squeezed column offset. -/
def placeLayerNodes (data : GraphData) (cs : CanvasSize) (L : ℕ) (width height : ℚ)
    (currentX : ℚ) (positions : PosMap) (layerIndex : ℕ) (layer : List String) : PosMap :=
  let margin : ℚ := 60
  let centerY := height / 2
  let availableHeight := height - 2 * margin
  let cap := maxNodesPerColOf cs availableHeight
  let optimalLayerWidth := optimalLayerWidthOf cs L (width - 2 * margin)
  let optimalNodeSpacing := max (minNodeSpacingOf cs)
    (min (maxNodeSpacingOf cs) (availableHeight / ((max cap 2 : ℕ) : ℚ)))
  let colsNeeded := (layer.length + cap - 1) / cap
  let sorted :=
    if 0 < layerIndex then
      jsSort (fun a b =>
        avgPredY data positions centerY a ≤ avgPredY data positions centerY b) layer
    else layer
  (List.range colsNeeded).foldl (fun pos col =>
      let startIdx := col * cap
      let endIdx := min (startIdx + cap) sorted.length
      let colNodes := (sorted.drop startIdx).take (endIdx - startIdx)
      let colSpacingMultiplier : ℚ := if 1 < colsNeeded then 8/10 else 1
      let x := currentX + (col : ℚ) * optimalLayerWidth * colSpacingMultiplier
      placeColumn margin centerY availableHeight optimalNodeSpacing x layerIndex L
        colNodes pos)
    positions

/-- The body of the layer forEach: skip empty layers; otherwise place the
layer and advance currentX by the adaptive layer spacing unless this is the
last layer. -/
def placeLayerStep (data : GraphData) (cs : CanvasSize) (L : ℕ) (width height : ℚ)
    (ps : PlaceState) (pr : ℕ × List String) : PlaceState :=
  if pr.2.isEmpty then ps
  else
    ⟨layerAdvanceX cs L pr.1 (width - 2 * 60) ps.currentX,
     placeLayerNodes data cs L width height ps.currentX ps.positions pr.1 pr.2⟩

/-- Node placement over the assigned layers: fold the layer forEach over the
indexed layers, starting at currentX = margin with no positions. -/
def placeAll (data : GraphData) (cs : CanvasSize) (layers : List (List String))
    (width height : ℚ) : PosMap :=
  ((layers.enum).foldl (placeLayerStep data cs layers.length width height)
    ⟨60, []⟩).positions

/-- calculatePositions: canvas dimensions, dependency maps, layer assignment,
then placement. Fails exactly where the source throws (an edge whose source id
is not a node). -/
def calculatePositionsE (data : GraphData) (cs : CanvasSize) :
    Except Unit (PosMap × ℚ × ℚ) :=
  match getCanvasDimensions data cs with
  | .error u => .error u
  | .ok wh =>
    match buildMaps data with
    | .error u => .error u
    | .ok md =>
      let layers := assignLayers data md.1 md.2
      .ok (placeAll data cs layers wh.1 wh.2, wh.1, wh.2)

/-- The edge-density measure the source computes
(2E / (N (N - 1)) for N > 1, else 0). -/
def edgeDensity (data : GraphData) : ℚ :=
  let n := data.nodes.length
  let e := data.edges.length
  if 1 < n then (2 * (e : ℚ)) / ((n : ℚ) * ((n : ℚ) - 1)) else 0

/-- The density cap as reached from raw graph data and a canvas-size
selection: canvas dimensions first, then maxNodesPerCol from the available
height (height minus both 60-unit margins). -/
def capOfE (data : GraphData) (cs : CanvasSize) : Except Unit ℕ :=
  match getCanvasDimensions data cs with
  | .error u => .error u
  | .ok wh => .ok (maxNodesPerColOf cs (wh.2 - 2 * 60))

/-- A routed edge path: nothing, a straight segment, or a quadratic curve
(the source renders these as SVG path strings M/L and M/Q). -/
inductive EdgePath where
  | empty
  | line (p q : ℝ × ℝ)
  | quad (p c q : ℝ × ℝ)

/-- The arrowhead anchor: position and angle in degrees. -/
structure ArrowPos where
  x : ℝ
  y : ℝ
  angle : ℝ

/-- JS Math.round: round half up. -/
noncomputable def jround (x : ℝ) : ℤ := ⌊x + 1 / 2⌋

section EdgeRouting

open Classical

/-- The parallel-edge perpendicular offset block of getEdgePath: when the
unordered node pair of the edge carries more than one edge and an edge index
was supplied, offset perpendicularly by 15 units times the rank of this edge
centered around the middle of the parallel set. findIndex returning -1 for an
absent id is modelled explicitly. -/
noncomputable def edgeOffset (data : GraphData) (sourcePos targetPos : ℝ × ℝ)
    (edge : GraphEdge) (edgeIndex : Option ℕ) : ℝ × ℝ :=
  let parallelEdges := data.edges.filter (fun e =>
    (e.source = edge.source ∧ e.target = edge.target) ∨
    (e.source = edge.target ∧ e.target = edge.source))
  if 1 < parallelEdges.length ∧ edgeIndex ≠ Option.none then
    let currentIndex : ℤ :=
      match parallelEdges.findIdx? (fun e => e.id = edge.id) with
      | some i => (i : ℤ)
      | Option.none => -1
    let offsetAmount : ℝ := 15
    let offsetDirection : ℝ := (Int.cast currentIndex : ℝ) - ((parallelEdges.length : ℝ) - 1) / 2
    let dx := targetPos.1 - sourcePos.1
    let dy := targetPos.2 - sourcePos.2
    let length := Real.sqrt (dx * dx + dy * dy)
    if 0 < length then
      let perpX := -dy / length
      let perpY := dx / length
      (perpX * offsetAmount * offsetDirection, perpY * offsetAmount * offsetDirection)
    else (0, 0)
  else (0, 0)

/-- getEdgePath: resolve both positions (missing position: no path), resolve
both nodes (missing node: no path), trim both endpoints inward by the rounded
scaled node radius, add the parallel-edge offset, then emit a straight segment
when the trimmed endpoints are closer than 50 units and a quadratic curve
otherwise, bowing horizontally when vertical travel dominates and vertically
otherwise, with curvature min(distance * 0.3, 80). Coincident centers
(distance exactly 0) produce no path. -/
noncomputable def getEdgePath (data : GraphData) (positions : String → Option (ℝ × ℝ))
    (cs : CanvasSize) (edge : GraphEdge) (edgeIndex : Option ℕ) : EdgePath :=
  match positions edge.source, positions edge.target with
  | some sourcePos, some targetPos =>
    match data.nodes.find? (fun n => n.id = edge.source),
          data.nodes.find? (fun n => n.id = edge.target) with
    | some sourceNode, some targetNode =>
      let sourceBaseSize := getNodeSize sourceNode.type
      let targetBaseSize := getNodeSize targetNode.type
      let m := sizeMultiplierQ cs
      let sourceRadius : ℝ := (jround ((sourceBaseSize * m : ℚ) : ℝ) : ℝ)
      let targetRadius : ℝ := (jround ((targetBaseSize * m : ℚ) : ℝ) : ℝ)
      let off := edgeOffset data sourcePos targetPos edge edgeIndex
      let dx := targetPos.1 - sourcePos.1
      let dy := targetPos.2 - sourcePos.2
      let distance := Real.sqrt (dx * dx + dy * dy)
      if distance = 0 then .empty
      else
        let dirX := dx / distance
        let dirY := dy / distance
        let startX := sourcePos.1 + dirX * sourceRadius + off.1
        let startY := sourcePos.2 + dirY * sourceRadius + off.2
        let endX := targetPos.1 - dirX * targetRadius + off.1
        let endY := targetPos.2 - dirY * targetRadius + off.2
        let newDx := endX - startX
        let newDy := endY - startY
        let newDistance := Real.sqrt (newDx * newDx + newDy * newDy)
        if newDistance < 50 then .line (startX, startY) (endX, endY)
        else
          let midX := (startX + endX) / 2
          let midY := (startY + endY) / 2
          let curvature := min (newDistance * (3/10)) 80
          if |newDx| < |newDy| then
            let curvature1 := curvature * (7/10)
            let controlX := midX + (if startX < endX then curvature1 else -curvature1)
            .quad (startX, startY) (controlX, midY) (endX, endY)
          else
            let controlY :=
              midY + (if startY < endY then -(curvature * (8/10)) else curvature * (8/10))
            .quad (startX, startY) (midX, controlY) (endX, endY)
    | _, _ => .empty
  | _, _ => .empty

/-- getArrowPosition: with both positions resolved, the anchor sits at ratio
max(0.7, (distance - 30) / distance) of the way from source to target, with
the angle of the direction vector in degrees (atan2 modelled through
Complex.arg); with either position unresolved it returns x = 0, y = 0,
angle = 0. -/
noncomputable def getArrowPosition (positions : String → Option (ℝ × ℝ))
    (edge : GraphEdge) : ArrowPos :=
  match positions edge.source, positions edge.target with
  | some sourcePos, some targetPos =>
    let dx := targetPos.1 - sourcePos.1
    let dy := targetPos.2 - sourcePos.2
    let angle := Complex.arg ⟨dx, dy⟩ * 180 / Real.pi
    let distance := Real.sqrt (dx * dx + dy * dy)
    let ratio := max (7/10) ((distance - 30) / distance)
    ⟨sourcePos.1 + dx * ratio, sourcePos.2 + dy * ratio, angle⟩
  | _, _ => ⟨0, 0, 0⟩

/-- Euclidean distance, written the way the source computes it. -/
noncomputable def dist2 (p q : ℝ × ℝ) : ℝ :=
  Real.sqrt ((q.1 - p.1) * (q.1 - p.1) + (q.2 - p.2) * (q.2 - p.2))

end EdgeRouting

/-- Convenience constructor for a node with label equal to its id. -/
def mkN (i t : String) : GraphNode := ⟨i, i, t, ""⟩

/-- Convenience constructor for an edge without description. -/
def mkE (i s t : String) : GraphEdge := ⟨i, s, t, "", Option.none⟩

/-- A graph with an edge whose source id names no node. -/
def exBadSource : GraphData := ⟨[mkN "A" "start"], [mkE "e1" "ghost" "A"]⟩

/-- A graph with an edge whose target id names no node. -/
def exBadTarget : GraphData := ⟨[mkN "A" "start"], [mkE "e1" "A" "ghost"]⟩

/-- A two-node graph with no start-tagged node; A has in-degree 0. -/
def exNoStart : GraphData := ⟨[mkN "A" "normal", mkN "B" "normal"], [mkE "e1" "A" "B"]⟩

/-- Two start-tagged nodes with an edge between them. -/
def exTwoStarts : GraphData := ⟨[mkN "A" "start", mkN "B" "start"], [mkE "e1" "A" "B"]⟩

/-- The three-node cycle with no designated start. -/
def cycleGraph : GraphData :=
  ⟨[mkN "A" "process", mkN "B" "process", mkN "C" "process"],
   [mkE "e1" "A" "B", mkE "e2" "B" "C", mkE "e3" "C" "A"]⟩

/-- Three isolated nodes. -/
def exNodes3 : GraphData := ⟨[mkN "a" "normal", mkN "b" "normal", mkN "c" "normal"], []⟩

/-- Four isolated nodes. -/
def exNodes4 : GraphData :=
  ⟨[mkN "a" "normal", mkN "b" "normal", mkN "c" "normal", mkN "d" "normal"], []⟩

/-- Four nodes, no edges (edge density 0). -/
def exSparse4 : GraphData := exNodes4

/-- Four nodes, six edges (edge density 1). -/
def exDense4 : GraphData :=
  ⟨[mkN "a" "normal", mkN "b" "normal", mkN "c" "normal", mkN "d" "normal"],
   [mkE "e1" "a" "b", mkE "e2" "a" "c", mkE "e3" "a" "d",
    mkE "e4" "b" "c", mkE "e5" "b" "d", mkE "e6" "c" "d"]⟩

/-- A ten-node chain headed by a start node: ten singleton layers. -/
def chainGraph : GraphData :=
  ⟨[mkN "n0" "start", mkN "n1" "process", mkN "n2" "process", mkN "n3" "process",
    mkN "n4" "process", mkN "n5" "process", mkN "n6" "process", mkN "n7" "process",
    mkN "n8" "process", mkN "n9" "process"],
   [mkE "e0" "n0" "n1", mkE "e1" "n1" "n2", mkE "e2" "n2" "n3", mkE "e3" "n3" "n4",
    mkE "e4" "n4" "n5", mkE "e5" "n5" "n6", mkE "e6" "n6" "n7", mkE "e7" "n7" "n8",
    mkE "e8" "n8" "n9"]⟩

/-- A start node feeding one process node: two singleton layers. -/
def exStartChain : GraphData := ⟨[mkN "S" "start", mkN "X" "process"], [mkE "e1" "S" "X"]⟩

/-- A start node and an end node placed ten units apart on the x-axis. -/
def exStartEnd : GraphData := ⟨[mkN "A" "start", mkN "B" "end"], [mkE "e1" "A" "B"]⟩

/-- Two process nodes placed ten units apart on the x-axis. -/
def exProcPair : GraphData := ⟨[mkN "A" "process", mkN "B" "process"], [mkE "e1" "A" "B"]⟩

/-- The position table placing A at the origin and B ten units to its right. -/
noncomputable def posAB : String → Option (ℝ × ℝ) := fun s =>
  if s = "A" then some (0, 0) else if s = "B" then some (10, 0) else Option.none

/-- The id list of a graph, in input order. -/
def idsOf (data : GraphData) : List String := data.nodes.map (fun n => n.id)

/-- Every predecessor (source of an in-edge) of c lies in V. -/
def predsIn (edges : List GraphEdge) (V : List String) (c : String) : Prop :=
  ∀ e ∈ edges, e.target = c → e.source ∈ V

/-- The number of in-edges of c whose source is not yet in V
(what the running in-degree of a live node equals during the BFS). -/
def inCount (edges : List GraphEdge) (V : List String) (c : String) : ℤ :=
  ((edges.filter (fun e => e.target = c ∧ e.source ∉ V)).length : ℤ)

/-- The successor list buildMaps accumulates for p: the targets of the edges
with source p, in input order. -/
def succsOf (edges : List GraphEdge) (p : String) : List String :=
  (edges.filter (fun e => e.source = p)).map (fun e => e.target)

/-- The canvas dimensions as a pure function of the selector and node count
(what getCanvasDimensions returns whenever it does not throw). -/
def dimsPure (cs : CanvasSize) (n : ℕ) : ℚ × ℚ :=
  match cs with
  | .small => (600, 400)
  | .medium => (900, 600)
  | .large => (1200, 800)
  | .auto => autoDims n

section Theorems

attribute [local semireducible] Rat.add Rat.mul Rat.inv Rat.sub

lemma alookup_aset_self {α : Type} (m : List (String × α)) (k : String) (v : α) :
    alookup (aset m k v) k = some v := by
  induction m with
  | nil => simp [aset, alookup]
  | cons hd tl ih =>
    by_cases h : hd.1 = k
    · simp [aset, h, alookup]
    · simp [aset, h, alookup, ih]

lemma alookup_aset_of_ne {α : Type} (m : List (String × α)) (k c : String) (v : α)
    (h : c ≠ k) : alookup (aset m k v) c = alookup m c := by
  have hk : k ≠ c := fun hh => h hh.symm
  induction m with
  | nil => simp [aset, alookup, hk]
  | cons hd tl ih =>
    by_cases h1 : hd.1 = k
    · simp [aset, h1, alookup, hk]
    · by_cases h2 : hd.1 = c <;> simp [aset, h1, alookup, h2, ih, h]

lemma mem_of_alookup {α : Type} (m : List (String × α)) (k : String) (v : α)
    (h : alookup m k = some v) : (k, v) ∈ m := by
  induction m with
  | nil => simp [alookup] at h
  | cons hd tl ih =>
    obtain ⟨a, b⟩ := hd
    by_cases h1 : a = k
    · simp only [alookup, if_pos h1] at h
      obtain rfl : b = v := by simpa using h
      subst h1
      exact List.mem_cons_self _ _
    · simp only [alookup, if_neg h1] at h
      exact List.mem_cons_of_mem _ (ih h)

lemma forall_mem_aset {α : Type} {P : String × α → Prop} {m : List (String × α)}
    {k : String} {v : α} (hm : ∀ kv ∈ m, P kv) (hv : P (k, v)) :
    ∀ kv ∈ aset m k v, P kv := by
  induction m with
  | nil =>
    intro kv hkv
    simp [aset] at hkv
    exact hkv ▸ hv
  | cons hd tl ih =>
    intro kv hkv
    by_cases h1 : hd.1 = k
    · simp only [aset, if_pos h1] at hkv
      rcases List.mem_cons.mp hkv with h | h
      · exact h ▸ hv
      · exact hm kv (List.mem_cons_of_mem _ h)
    · simp only [aset, if_neg h1] at hkv
      rcases List.mem_cons.mp hkv with h | h
      · exact hm kv (h ▸ List.mem_cons_self _ _)
      · exact ih (fun kv h => hm kv (List.mem_cons_of_mem _ h)) kv h

lemma getCanvasDimensions_ok {data : GraphData} {cs : CanvasSize} {wh : ℚ × ℚ}
    (h : getCanvasDimensions data cs = .ok wh) : wh = dimsPure cs data.nodes.length := by
  cases cs
  case small => simpa [getCanvasDimensions, dimsPure] using h.symm
  case medium => simpa [getCanvasDimensions, dimsPure] using h.symm
  case large => simpa [getCanvasDimensions, dimsPure] using h.symm
  case auto =>
    cases hb : buildMaps data with
    | error u => simp [getCanvasDimensions, hb] at h
    | ok md => simpa [getCanvasDimensions, hb, dimsPure] using h.symm

/-- C1: on a graph with an edge whose source id names no node, the layout
computation throws (TypeError on adjacencyList[edge.source].push) instead of
silently skipping the edge; with a missing target id it does proceed and
lay out the remainder. This contradicts the claim that the engine never
throws for either kind of dangling edge reference. -/
theorem calc_throws_on_missing_edge_source :
    calculatePositionsE exBadSource .auto = .error () ∧
    calculatePositionsE exBadTarget .auto = .ok ([("A", 60, 200)], 800, 400) := by
  exact ⟨by decide, by decide⟩

/-- C5 counterexample: under the automatic policy, going from three nodes to
four nodes (edge count fixed at zero) shrinks the canvas height from 560 to
440, so the height is not monotonically non-decreasing in node count. -/
theorem canvas_height_shrinks_with_extra_node :
    getCanvasDimensions exNodes3 .auto = .ok (800, 560) ∧
    getCanvasDimensions exNodes4 .auto = .ok (840, 440) ∧
    exNodes3.nodes.length ≤ exNodes4.nodes.length ∧
    exNodes3.edges.length = exNodes4.edges.length ∧
    ¬ ((560 : ℚ) ≤ 440) := by
  refine ⟨by decide, by decide, by decide, by decide, by norm_num⟩

/-- C5 amended: under the automatic policy the canvas width is monotonically
non-decreasing in node count, and both dimensions depend on the node count
only (so they are unchanged, in particular non-decreasing, when the edge
count varies with node count fixed); the height is not monotone in node
count. -/
theorem canvas_auto_width_monotone_and_edge_independent :
    (∀ d1 d2 wh1 wh2, getCanvasDimensions d1 .auto = .ok wh1 →
      getCanvasDimensions d2 .auto = .ok wh2 →
      d1.nodes.length ≤ d2.nodes.length → wh1.1 ≤ wh2.1) ∧
    (∀ d1 d2 wh1 wh2, getCanvasDimensions d1 .auto = .ok wh1 →
      getCanvasDimensions d2 .auto = .ok wh2 →
      d1.nodes.length = d2.nodes.length → wh1 = wh2) := by
  constructor
  · intro d1 d2 wh1 wh2 h1 h2 hle
    rw [getCanvasDimensions_ok h1, getCanvasDimensions_ok h2]
    show (autoDims d1.nodes.length).1 ≤ (autoDims d2.nodes.length).1
    simp only [autoDims]
    have hdiv : (d1.nodes.length + 2) / 3 ≤ (d2.nodes.length + 2) / 3 :=
      Nat.div_le_div_right (by omega)
    have hmax : max 1 ((d1.nodes.length + 2) / 3) ≤ max 1 ((d2.nodes.length + 2) / 3) :=
      max_le_max le_rfl hdiv
    have hq : ((max 1 ((d1.nodes.length + 2) / 3) : ℕ) : ℚ) ≤
        ((max 1 ((d2.nodes.length + 2) / 3) : ℕ) : ℚ) := by exact_mod_cast hmax
    have := mul_le_mul_of_nonneg_right hq (by norm_num : (0:ℚ) ≤ 220)
    exact max_le_max le_rfl (by linarith)
  · intro d1 d2 wh1 wh2 h1 h2 heq
    rw [getCanvasDimensions_ok h1, getCanvasDimensions_ok h2, heq]

/-- Witness for the C5 amended theorem at three versus four isolated nodes. -/
theorem canvas_auto_width_monotone_witness :
    (((800 : ℚ), (560 : ℚ)) : ℚ × ℚ).1 ≤ (((840 : ℚ), (440 : ℚ)) : ℚ × ℚ).1 :=
  canvas_auto_width_monotone_and_edge_independent.1 exNodes3 exNodes4
    (800, 560) (840, 440) (by decide) (by decide) (by decide)

/-- C7 counterexample: with node count and canvas size fixed, a strictly
denser graph (edge density 1 versus 0) receives the same density cap of 4,
not a strictly lower one. -/
theorem density_cap_not_strictly_lower :
    capOfE exSparse4 .auto = .ok 4 ∧ capOfE exDense4 .auto = .ok 4 ∧
    exSparse4.nodes.length = exDense4.nodes.length ∧
    edgeDensity exSparse4 < edgeDensity exDense4 ∧ ¬ ((4 : ℕ) < 4) := by
  refine ⟨by decide, by decide, by decide, by decide, by decide⟩

/-- C7 amended: the density cap is computed from the canvas size and available
height only; the graph-density measures the source computes (edges-per-node,
edge density) are never used, so for fixed node count and canvas-size
selection the cap is identical whatever the edge set — never higher for a
denser graph, but never strictly lower either. -/
theorem density_cap_ignores_edges :
    ∀ d1 d2 cs c1 c2, capOfE d1 cs = .ok c1 → capOfE d2 cs = .ok c2 →
      d1.nodes.length = d2.nodes.length → c1 = c2 := by
  intro d1 d2 cs c1 c2 h1 h2 heq
  have e1 : ∀ d c, capOfE d cs = .ok c →
      c = maxNodesPerColOf cs ((dimsPure cs d.nodes.length).2 - 2 * 60) := by
    intro d c h
    cases hw : getCanvasDimensions d cs with
    | error u => simp [capOfE, hw] at h
    | ok wh =>
      have := getCanvasDimensions_ok hw
      simp [capOfE, hw] at h
      rw [← h, this]
  rw [e1 d1 c1 h1, e1 d2 c2 h2, heq]

/-- Witness for the C7 amended theorem at the sparse and dense 4-node
graphs. -/
theorem density_cap_ignores_edges_witness : (4 : ℕ) = 4 :=
  density_cap_ignores_edges exSparse4 exDense4 .auto 4 4 (by decide) (by decide) (by decide)

/-- C2 counterexample: exNoStart has no start-tagged node but node A has
in-degree 0; the seed frontier the source builds is empty, the BFS produces
no layers at all, and both nodes — the in-degree-0 node A included — end up
in the single trailing catch-all layer. -/
theorem no_start_seed_frontier_empty :
    startQueue exNoStart = [] ∧
    (match buildMaps exNoStart with
      | .ok md => alookup md.2 "A"
      | .error _ => Option.none) = some (some 0) ∧
    bfsLayersE exNoStart = .ok [] ∧
    assignLayersE exNoStart = .ok [["A", "B"]] := by
  exact ⟨by decide, by decide, by decide, by decide⟩

/-- C6 counterexample: a ten-node chain laid out on the small canvas
(600 by 400, margin 60) puts node n1 at y = -40 < 60 and node n9 at
x = 1140 > 540 and y = 440 > 340, so positions do escape the margin-inset
canvas box. -/
theorem chain_positions_escape_canvas :
    (match calculatePositionsE chainGraph .small with
      | .ok r => alookup r.1 "n1"
      | .error _ => Option.none) = some (180, -40) ∧
    (match calculatePositionsE chainGraph .small with
      | .ok r => alookup r.1 "n9"
      | .error _ => Option.none) = some (1140, 440) ∧
    ¬ ((60 : ℚ) ≤ -40) ∧ ¬ ((1140 : ℚ) ≤ 600 - 60) ∧ ¬ ((440 : ℚ) ≤ 400 - 60) := by
  refine ⟨by decide, by decide, by norm_num, by norm_num, by norm_num⟩

lemma startQueue_subset (data : GraphData) : ∀ x ∈ startQueue data, x ∈ idsOf data := by
  intro x hx
  simp only [startQueue, List.mem_map, List.mem_filter] at hx
  obtain ⟨n, ⟨hn, _⟩, hid⟩ := hx
  exact List.mem_map.mpr ⟨n, hn, hid⟩

lemma succsOf_append (done : List GraphEdge) (e : GraphEdge) (p : String) :
    succsOf (done ++ [e]) p =
      succsOf done p ++ (if e.source = p then [e.target] else []) := by
  by_cases h : e.source = p <;> simp [succsOf, List.filter_append, h]

lemma inCount_nil_append (done : List GraphEdge) (e : GraphEdge) (c : String) :
    inCount (done ++ [e]) [] c =
      inCount done [] c + (if e.target = c then 1 else 0) := by
  by_cases h : e.target = c <;> simp [inCount, List.filter_append, h]

lemma predsIn_mono {edges : List GraphEdge} {V W : List String} {c : String}
    (hsub : ∀ x ∈ V, x ∈ W) (h : predsIn edges V c) : predsIn edges W c :=
  fun e he htc => hsub _ (h e he htc)

lemma exceptBind_err {α β : Type} (f : α → Except Unit β) :
    (Except.error () >>= f) = Except.error () := rfl

lemma exceptBind_ok {α β : Type} (x : α) (f : α → Except Unit β) :
    (Except.ok x >>= f) = f x := rfl

lemma inCount_zero_predsIn {edges : List GraphEdge} {V : List String} {c : String}
    (h : inCount edges V c = 0) : predsIn edges V c := by
  intro e he htc
  by_contra hsrc
  have hlen : (edges.filter (fun e => e.target = c ∧ e.source ∉ V)).length = 0 := by
    simpa [inCount] using h
  rw [List.length_eq_zero, List.filter_eq_nil_iff] at hlen
  exact (by simpa [htc, hsrc] using hlen e he)

lemma inCount_cons (e : GraphEdge) (es : List GraphEdge) (V : List String) (c : String) :
    inCount (e :: es) V c =
      (if e.target = c ∧ e.source ∉ V then 1 else 0) + inCount es V c := by
  by_cases h : e.target = c ∧ e.source ∉ V
  · simp only [inCount, List.filter_cons, h]
    simp [h]
    push_cast
    ring
  · simp only [inCount, List.filter_cons]
    simp [h]

lemma succsCount_cons (e : GraphEdge) (es : List GraphEdge) (n c : String) :
    ((succsOf (e :: es) n).count c : ℤ) =
      (if e.source = n ∧ e.target = c then 1 else 0) + ((succsOf es n).count c : ℤ) := by
  by_cases hs : e.source = n
  · by_cases ht : e.target = c <;>
      simp [succsOf, List.filter_cons, hs, ht, List.count_cons] <;> push_cast <;> ring
  · simp [succsOf, List.filter_cons, hs]

lemma inCount_visit (edges : List GraphEdge) (V : List String) (n : String)
    (hn : n ∉ V) (c : String) :
    inCount edges V c = ((succsOf edges n).count c : ℤ) + inCount edges (V ++ [n]) c := by
  induction edges with
  | nil => simp [inCount, succsOf]
  | cons e es ih =>
    rw [inCount_cons, inCount_cons, succsCount_cons, ih]
    have hsplit : (if e.target = c ∧ e.source ∉ V then (1:ℤ) else 0) =
        (if e.source = n ∧ e.target = c then 1 else 0) +
        (if e.target = c ∧ e.source ∉ V ++ [n] then 1 else 0) := by
      by_cases ht : e.target = c
      · by_cases hs : e.source = n
        · have h1 : e.source ∉ V := fun hh => hn (hs ▸ hh)
          have h2 : e.source ∈ V ++ [n] := by simp [hs]
          simp [ht, hs, h1, h2, hn]
        · by_cases hv : e.source ∈ V
          · have h2 : e.source ∈ V ++ [n] := by simp [hv]
            simp [ht, hs, hv, h2]
          · have h2 : e.source ∉ V ++ [n] := by simp [hv, hs]
            simp [ht, hs, hv, h2]
      · simp [ht]
    linarith [hsplit]

lemma initMaps_fold_adj (nodes : List GraphNode) :
    ∀ (m : Adj × Deg) (p : String),
      alookup (nodes.foldl (fun m n => (aset m.1 n.id [], aset m.2 n.id (some 0))) m).1 p =
        if p ∈ nodes.map (fun n => n.id) then some [] else alookup m.1 p := by
  induction nodes with
  | nil => simp
  | cons n rest ih =>
    intro m p
    simp only [List.foldl_cons]
    rw [ih]
    by_cases hp : p ∈ rest.map (fun n => n.id)
    · simp [hp]
    · by_cases hpn : p = n.id
      · simp [hp, hpn, alookup_aset_self]
      · simp [hp, hpn, alookup_aset_of_ne _ _ _ _ hpn]

lemma initMaps_fold_deg (nodes : List GraphNode) :
    ∀ (m : Adj × Deg) (p : String),
      alookup (nodes.foldl (fun m n => (aset m.1 n.id [], aset m.2 n.id (some 0))) m).2 p =
        if p ∈ nodes.map (fun n => n.id) then some (some 0) else alookup m.2 p := by
  induction nodes with
  | nil => simp
  | cons n rest ih =>
    intro m p
    simp only [List.foldl_cons]
    rw [ih]
    by_cases hp : p ∈ rest.map (fun n => n.id)
    · simp [hp]
    · by_cases hpn : p = n.id
      · simp [hp, hpn, alookup_aset_self]
      · simp [hp, hpn, alookup_aset_of_ne _ _ _ _ hpn]

lemma buildMaps_fold_inv (ids : List String) :
    ∀ (es done : List GraphEdge) (m md : Adj × Deg),
      es.foldlM addEdge m = .ok md →
      (∀ p q, alookup m.1 p = some q → p ∈ ids) →
      (∀ p, p ∈ ids → alookup m.1 p = some (succsOf done p)) →
      (∀ c k, alookup m.2 c = some (some k) → c ∈ ids ∧ k = inCount done [] c) →
      (∀ p q, alookup md.1 p = some q → p ∈ ids) ∧
      (∀ p, p ∈ ids → alookup md.1 p = some (succsOf (done ++ es) p)) ∧
      (∀ c k, alookup md.2 c = some (some k) → c ∈ ids ∧ k = inCount (done ++ es) [] c) := by
  intro es
  induction es with
  | nil =>
    intro done m md h h1 h2 h3
    simp only [List.foldlM_nil] at h
    cases h
    exact ⟨h1, by simpa using h2, by simpa using h3⟩
  | cons e rest ih =>
    intro done m md h h1 h2 h3
    simp only [List.foldlM_cons] at h
    cases hsrc : alookup m.1 e.source with
    | none => simp [addEdge, hsrc, exceptBind_err] at h
    | some succs =>
      simp only [addEdge, hsrc, exceptBind_ok] at h
      set adj1 := aset m.1 e.source (succs ++ [e.target]) with hadj1
      set deg1 := (match alookup m.2 e.target with
        | some (some k) => aset m.2 e.target (some (k + 1))
        | some Option.none => m.2
        | Option.none => aset m.2 e.target Option.none) with hdeg1
      have hsrcid : e.source ∈ ids := h1 _ _ hsrc
      have hsuccs : succs = succsOf done e.source := by
        have := h2 _ hsrcid
        rw [hsrc] at this
        exact Option.some.inj this
      have g1 : ∀ p q, alookup adj1 p = some q → p ∈ ids := by
        intro p q hp
        by_cases hps : p = e.source
        · exact hps ▸ hsrcid
        · rw [hadj1, alookup_aset_of_ne _ _ _ _ hps] at hp
          exact h1 _ _ hp
      have g2 : ∀ p, p ∈ ids → alookup adj1 p = some (succsOf (done ++ [e]) p) := by
        intro p hp
        by_cases hps : p = e.source
        · subst hps
          rw [hadj1, alookup_aset_self, succsOf_append, if_pos rfl, hsuccs]
        · rw [hadj1, alookup_aset_of_ne _ _ _ _ hps, succsOf_append,
            if_neg (fun hh => hps hh.symm), List.append_nil]
          exact h2 _ hp
      have g3 : ∀ c k, alookup deg1 c = some (some k) →
          c ∈ ids ∧ k = inCount (done ++ [e]) [] c := by
        intro c k hc
        rw [hdeg1] at hc
        cases htgt : alookup m.2 e.target with
        | some ov =>
          cases ov with
          | some k0 =>
            simp only [htgt] at hc
            by_cases hce : c = e.target
            · subst hce
              rw [alookup_aset_self] at hc
              obtain rfl : k0 + 1 = k := by simpa using hc
              obtain ⟨hi, hk0⟩ := h3 _ _ htgt
              refine ⟨hi, ?_⟩
              rw [inCount_nil_append, if_pos rfl, ← hk0]
            · rw [alookup_aset_of_ne _ _ _ _ hce] at hc
              obtain ⟨hi, hk⟩ := h3 _ _ hc
              refine ⟨hi, ?_⟩
              rw [inCount_nil_append, if_neg (fun hh => hce hh.symm), hk]
              omega
          | none =>
            simp only [htgt] at hc
            have hce : ¬ c = e.target := by
              intro hh
              rw [hh, htgt] at hc
              simp at hc
            obtain ⟨hi, hk⟩ := h3 _ _ hc
            refine ⟨hi, ?_⟩
            rw [inCount_nil_append, if_neg (fun hh => hce hh.symm), hk]
            omega
        | none =>
          simp only [htgt] at hc
          have hce : ¬ c = e.target := by
            intro hh
            rw [hh] at hc
            rw [alookup_aset_self] at hc
            simp at hc
          rw [alookup_aset_of_ne _ _ _ _ hce] at hc
          obtain ⟨hi, hk⟩ := h3 _ _ hc
          refine ⟨hi, ?_⟩
          rw [inCount_nil_append, if_neg (fun hh => hce hh.symm), hk]
          omega
      have := ih (done ++ [e]) (adj1, deg1) md h g1 g2 g3
      simpa [List.append_assoc] using this

lemma buildMaps_inv {data : GraphData} {md : Adj × Deg} (h : buildMaps data = .ok md) :
    (∀ p q, alookup md.1 p = some q → p ∈ idsOf data) ∧
    (∀ p, p ∈ idsOf data → alookup md.1 p = some (succsOf data.edges p)) ∧
    (∀ c k, alookup md.2 c = some (some k) →
      c ∈ idsOf data ∧ k = inCount data.edges [] c) := by
  have h1 : ∀ p q, alookup (initMaps data.nodes).1 p = some q → p ∈ idsOf data := by
    intro p q hp
    rw [initMaps, initMaps_fold_adj] at hp
    by_cases hmem : p ∈ data.nodes.map (fun n => n.id)
    · exact hmem
    · simp [hmem, alookup] at hp
  have h2 : ∀ p, p ∈ idsOf data →
      alookup (initMaps data.nodes).1 p = some (succsOf [] p) := by
    intro p hp
    rw [initMaps, initMaps_fold_adj]
    simp [idsOf] at hp
    simp [hp, succsOf]
  have h3 : ∀ c k, alookup (initMaps data.nodes).2 c = some (some k) →
      c ∈ idsOf data ∧ k = inCount [] [] c := by
    intro c k hc
    rw [initMaps, initMaps_fold_deg] at hc
    by_cases hmem : c ∈ data.nodes.map (fun n => n.id)
    · refine ⟨hmem, ?_⟩
      simp [hmem] at hc
      simp [← hc, inCount]
    · simp [hmem, alookup] at hc
  have := buildMaps_fold_inv (idsOf data) data.edges [] (initMaps data.nodes) md h h1 h2 h3
  simpa using this

lemma inCount_nonneg (edges : List GraphEdge) (V : List String) (c : String) :
    0 ≤ inCount edges V c := by
  simp only [inCount]
  exact Int.natCast_nonneg _

lemma alookup_decDeg_of_ne (deg : Deg) (child c : String) (h : c ≠ child) :
    alookup (decDeg deg child) c = alookup deg c := by
  unfold decDeg
  cases hd : alookup deg child with
  | none => exact alookup_aset_of_ne _ _ _ _ h
  | some ov =>
    cases ov with
    | none => rfl
    | some k => exact alookup_aset_of_ne _ _ _ _ h

lemma foldl_promoteFold_inv (edges : List GraphEdge) (ids vis : List String) :
    ∀ (succs : List String) (nq : List String) (deg : Deg),
      (∀ c k, alookup deg c = some (some k) →
        k = (succs.count c : ℤ) + inCount edges vis c) →
      (∀ c k, alookup deg c = some (some k) → c ∈ ids) →
      (∀ x ∈ nq, x ∈ ids) →
      (∀ c ∈ nq, predsIn edges vis c) →
      (∀ c k, alookup (succs.foldl (promoteFold vis) (nq, deg)).2 c = some (some k) →
          k = inCount edges vis c) ∧
      (∀ c k, alookup (succs.foldl (promoteFold vis) (nq, deg)).2 c = some (some k) →
          c ∈ ids) ∧
      (∀ x ∈ (succs.foldl (promoteFold vis) (nq, deg)).1, x ∈ ids) ∧
      (∀ c ∈ (succs.foldl (promoteFold vis) (nq, deg)).1, predsIn edges vis c) := by
  intro succs
  induction succs with
  | nil =>
    intro nq deg hacc hkeys hnq hnqg
    refine ⟨?_, hkeys, hnq, hnqg⟩
    intro c k h
    have := hacc c k h
    simpa using this
  | cons child rest ih =>
    intro nq deg hacc hkeys hnq hnqg
    simp only [List.foldl_cons]
    have hacc1 : ∀ c k, alookup (decDeg deg child) c = some (some k) →
        k = (rest.count c : ℤ) + inCount edges vis c := by
      intro c k hc
      by_cases hcc : c = child
      · subst hcc
        cases hd : alookup deg c with
        | none =>
          rw [decDeg, hd, alookup_aset_self] at hc
          simp at hc
        | some ov =>
          cases ov with
          | none =>
            rw [decDeg, hd, hd] at hc
            simp at hc
          | some k0 =>
            rw [decDeg, hd, alookup_aset_self] at hc
            obtain rfl : k0 - 1 = k := by simpa using hc
            have := hacc c k0 hd
            rw [List.count_cons_self] at this
            push_cast at this ⊢
            omega
      · rw [alookup_decDeg_of_ne _ _ _ hcc] at hc
        have := hacc c k hc
        rw [List.count_cons_of_ne hcc] at this
        exact this
    have hkeys1 : ∀ c k, alookup (decDeg deg child) c = some (some k) → c ∈ ids := by
      intro c k hc
      by_cases hcc : c = child
      · subst hcc
        cases hd : alookup deg c with
        | none =>
          rw [decDeg, hd, alookup_aset_self] at hc
          simp at hc
        | some ov =>
          cases ov with
          | none =>
            rw [decDeg, hd, hd] at hc
            simp at hc
          | some k0 =>
            exact hkeys c k0 hd
      · rw [alookup_decDeg_of_ne _ _ _ hcc] at hc
        exact hkeys c k hc
    by_cases hcond : alookup (decDeg deg child) child = some (some 0) ∧
        child ∉ vis ∧ child ∉ nq
    · have hchild_ids : child ∈ ids := hkeys1 _ _ hcond.1
      have hchild_preds : predsIn edges vis child := by
        have h0 := hacc1 _ _ hcond.1
        have hc1 : (0:ℤ) ≤ (rest.count child : ℤ) := Int.natCast_nonneg _
        have hc2 := inCount_nonneg edges vis child
        have : inCount edges vis child = 0 := by omega
        exact inCount_zero_predsIn this
      have hstep : promoteFold vis (nq, deg) child =
          (nq ++ [child], decDeg deg child) := by
        simp only [promoteFold]
        rw [if_pos hcond]
      rw [hstep]
      refine ih (nq ++ [child]) (decDeg deg child) hacc1 hkeys1 ?_ ?_
      · intro x hx
        rcases List.mem_append.mp hx with h | h
        · exact hnq x h
        · simp at h
          exact h ▸ hchild_ids
      · intro c hc
        rcases List.mem_append.mp hc with h | h
        · exact hnqg c h
        · simp at h
          exact h ▸ hchild_preds
    · have hstep : promoteFold vis (nq, deg) child = (nq, decDeg deg child) := by
        simp only [promoteFold]
        rw [if_neg hcond]
      rw [hstep]
      exact ih nq (decDeg deg child) hacc1 hkeys1 hnq hnqg

lemma processNode_sync (adj : Adj) (st : BfsState) (n : String) (Ventry : List String)
    (h : st.visited = Ventry ++ st.layer) :
    (processNode adj st n).visited = Ventry ++ (processNode adj st n).layer := by
  unfold processNode
  by_cases hm : n ∈ st.visited
  · rw [if_pos hm]
    exact h
  · rw [if_neg hm]
    simp [h, List.append_assoc]

lemma foldl_processNode_inv (adj : Adj) (ids : List String) (edges : List GraphEdge)
    (hadj : ∀ p ∈ ids, alookup adj p = some (succsOf edges p)) (Ventry : List String) :
    ∀ (q : List String) (st : BfsState),
      (∀ x ∈ q, x ∈ ids) →
      st.visited = Ventry ++ st.layer →
      st.visited.Nodup →
      (∀ x ∈ st.visited, x ∈ ids) →
      (∀ x ∈ st.nextQ, x ∈ ids) →
      (∀ c k, alookup st.deg c = some (some k) → c ∈ ids) →
      (∀ c k, alookup st.deg c = some (some k) → k = inCount edges st.visited c) →
      (∀ c ∈ st.nextQ, predsIn edges st.visited c) →
      ((q.foldl (processNode adj) st).visited =
        Ventry ++ (q.foldl (processNode adj) st).layer) ∧
      (q.foldl (processNode adj) st).visited.Nodup ∧
      (∀ x ∈ (q.foldl (processNode adj) st).visited, x ∈ ids) ∧
      (∀ x ∈ (q.foldl (processNode adj) st).nextQ, x ∈ ids) ∧
      (∀ c k, alookup (q.foldl (processNode adj) st).deg c = some (some k) → c ∈ ids) ∧
      (∀ c k, alookup (q.foldl (processNode adj) st).deg c = some (some k) →
        k = inCount edges (q.foldl (processNode adj) st).visited c) ∧
      (∀ c ∈ (q.foldl (processNode adj) st).nextQ,
        predsIn edges (q.foldl (processNode adj) st).visited c) := by
  intro q
  induction q with
  | nil =>
    intro st hq hsync hnodup hvis hnq hkeys hacc hnqg
    exact ⟨hsync, hnodup, hvis, hnq, hkeys, hacc, hnqg⟩
  | cons n q1 ih =>
    intro st hq hsync hnodup hvis hnq hkeys hacc hnqg
    simp only [List.foldl_cons]
    have hn_ids : n ∈ ids := hq n (List.mem_cons_self _ _)
    have hq1 : ∀ x ∈ q1, x ∈ ids := fun x hx => hq x (List.mem_cons_of_mem _ hx)
    by_cases hm : n ∈ st.visited
    · have hst : processNode adj st n = st := by
        unfold processNode
        rw [if_pos hm]
      rw [hst]
      exact ih st hq1 hsync hnodup hvis hnq hkeys hacc hnqg
    · have hsuccs : (alookup adj n).getD [] = succsOf edges n := by
        rw [hadj n hn_ids]
        rfl
      have hst : processNode adj st n =
          ⟨st.layer ++ [n],
           ((succsOf edges n).foldl (promoteFold (st.visited ++ [n]))
             (st.nextQ, st.deg)).1,
           st.visited ++ [n],
           ((succsOf edges n).foldl (promoteFold (st.visited ++ [n]))
             (st.nextQ, st.deg)).2⟩ := by
        unfold processNode
        rw [if_neg hm, hsuccs]
      rw [hst]
      have hacc0 : ∀ c k, alookup st.deg c = some (some k) →
          k = ((succsOf edges n).count c : ℤ) + inCount edges (st.visited ++ [n]) c := by
        intro c k hc
        rw [hacc c k hc]
        exact inCount_visit edges st.visited n hm c
      have hnqg0 : ∀ c ∈ st.nextQ, predsIn edges (st.visited ++ [n]) c := by
        intro c hc
        exact predsIn_mono (fun x hx => List.mem_append.mpr (Or.inl hx)) (hnqg c hc)
      obtain ⟨p1, p2, p3, p4⟩ := foldl_promoteFold_inv edges ids (st.visited ++ [n])
        (succsOf edges n) st.nextQ st.deg hacc0 hkeys hnq hnqg0
      refine ih _ hq1 ?_ ?_ ?_ p3 p2 p1 p4
      · show st.visited ++ [n] = Ventry ++ (st.layer ++ [n])
        rw [hsync, List.append_assoc]
      · show (st.visited ++ [n]).Nodup
        simp [List.nodup_append, hnodup, hm]
      · intro x hx
        rcases List.mem_append.mp hx with h | h
        · exact hvis x h
        · simp at h
          exact h ▸ hn_ids

lemma foldl_processNode_layerGood (adj : Adj) (edges : List GraphEdge)
    (Ventry : List String) :
    ∀ (q : List String) (st : BfsState),
      st.visited = Ventry ++ st.layer →
      (∀ c ∈ q, c ∉ Ventry → predsIn edges Ventry c) →
      (∀ c ∈ st.layer, predsIn edges Ventry c) →
      ∀ c ∈ (q.foldl (processNode adj) st).layer, predsIn edges Ventry c := by
  intro q
  induction q with
  | nil =>
    intro st hsync hq hlayer
    exact hlayer
  | cons n q1 ih =>
    intro st hsync hq hlayer
    simp only [List.foldl_cons]
    have hq1 : ∀ c ∈ q1, c ∉ Ventry → predsIn edges Ventry c :=
      fun c hc => hq c (List.mem_cons_of_mem _ hc)
    by_cases hm : n ∈ st.visited
    · have hst : processNode adj st n = st := by
        unfold processNode
        rw [if_pos hm]
      rw [hst]
      exact ih st hsync hq1 hlayer
    · have hnV : n ∉ Ventry := by
        intro hh
        exact hm (hsync ▸ List.mem_append.mpr (Or.inl hh))
      have hng : predsIn edges Ventry n := hq n (List.mem_cons_self _ _) hnV
      refine ih _ (processNode_sync adj st n Ventry hsync) hq1 ?_
      intro c hc
      have hlay : (processNode adj st n).layer = st.layer ++ [n] := by
        unfold processNode
        rw [if_neg hm]
      rw [hlay] at hc
      rcases List.mem_append.mp hc with h | h
      · exact hlayer c h
      · simp at h
        exact h ▸ hng

lemma processRound_inv (adj : Adj) (ids : List String) (edges : List GraphEdge)
    (hadj : ∀ p ∈ ids, alookup adj p = some (succsOf edges p))
    (q visited : List String) (deg : Deg)
    (hq : ∀ x ∈ q, x ∈ ids) (hnd : visited.Nodup) (hvis : ∀ x ∈ visited, x ∈ ids)
    (hkeys : ∀ c k, alookup deg c = some (some k) → c ∈ ids)
    (hacc : ∀ c k, alookup deg c = some (some k) → k = inCount edges visited c) :
    (processRound adj q visited deg).visited =
      visited ++ (processRound adj q visited deg).layer ∧
    (processRound adj q visited deg).visited.Nodup ∧
    (∀ x ∈ (processRound adj q visited deg).visited, x ∈ ids) ∧
    (∀ x ∈ (processRound adj q visited deg).nextQ, x ∈ ids) ∧
    (∀ c k, alookup (processRound adj q visited deg).deg c = some (some k) → c ∈ ids) ∧
    (∀ c k, alookup (processRound adj q visited deg).deg c = some (some k) →
      k = inCount edges (processRound adj q visited deg).visited c) ∧
    (∀ c ∈ (processRound adj q visited deg).nextQ,
      predsIn edges (processRound adj q visited deg).visited c) :=
  foldl_processNode_inv adj ids edges hadj visited q ⟨[], [], visited, deg⟩ hq
    (by simp) (by simpa using hnd) (by simpa using hvis) (by simp)
    (by simpa using hkeys) (by simpa using hacc) (by simp)

lemma processRound_layerGood (adj : Adj) (edges : List GraphEdge)
    (q visited : List String) (deg : Deg)
    (Hq : ∀ c ∈ q, c ∉ visited → predsIn edges visited c) :
    ∀ c ∈ (processRound adj q visited deg).layer, predsIn edges visited c :=
  foldl_processNode_layerGood adj edges visited q ⟨[], [], visited, deg⟩ (by simp) Hq
    (by simp)

lemma bfsLoop_inv (adj : Adj) (ids : List String) (edges : List GraphEdge)
    (hadj : ∀ p ∈ ids, alookup adj p = some (succsOf edges p)) :
    ∀ (fuel : ℕ) (q visited : List String) (deg : Deg),
      (∀ x ∈ q, x ∈ ids) → visited.Nodup → (∀ x ∈ visited, x ∈ ids) →
      (∀ c k, alookup deg c = some (some k) → c ∈ ids) →
      (∀ c k, alookup deg c = some (some k) → k = inCount edges visited c) →
      (bfsLoop adj fuel q visited deg).2 =
        visited ++ (bfsLoop adj fuel q visited deg).1.join ∧
      (bfsLoop adj fuel q visited deg).2.Nodup ∧
      (∀ x ∈ (bfsLoop adj fuel q visited deg).2, x ∈ ids) ∧
      ((∀ c ∈ q, c ∉ visited → predsIn edges visited c) →
        ∀ k c, c ∈ (bfsLoop adj fuel q visited deg).1.getD k [] →
          predsIn edges (visited ++ ((bfsLoop adj fuel q visited deg).1.take k).join) c) := by
  intro fuel
  induction fuel with
  | zero =>
    intro q visited deg hq hnd hvis hkeys hacc
    refine ⟨by simp [bfsLoop], by simpa [bfsLoop] using hnd,
      by simpa [bfsLoop] using hvis, ?_⟩
    intro Hq k c hc
    simp [bfsLoop] at hc
  | succ fuel ih =>
    intro q visited deg hq hnd hvis hkeys hacc
    have hunf0 : bfsLoop adj (fuel+1) q visited deg =
        if q.isEmpty then ([], visited) else
          (let st := processRound adj q visited deg
           let r := bfsLoop adj fuel st.nextQ st.visited st.deg
           (if st.layer.isEmpty then r.1 else st.layer :: r.1, r.2)) := rfl
    by_cases hqe : q.isEmpty
    · rw [hunf0, if_pos hqe]
      refine ⟨by simp, hnd, hvis, ?_⟩
      intro Hq k c hc
      simp at hc
    · rw [hunf0, if_neg hqe]
      obtain ⟨hsync, hnd2, hvis2, hnq2, hkeys2, hacc2, hnqg2⟩ :=
        processRound_inv adj ids edges hadj q visited deg hq hnd hvis hkeys hacc
      set st := processRound adj q visited deg with hstdef
      obtain ⟨ih1, ih2, ih3, ih4⟩ := ih st.nextQ st.visited st.deg hnq2 hnd2 hvis2 hkeys2 hacc2
      set r := bfsLoop adj fuel st.nextQ st.visited st.deg with hrdef
      by_cases hle : st.layer.isEmpty
      · have hlayer_nil : st.layer = [] := List.isEmpty_iff.mp hle
        have hvst : st.visited = visited := by
          rw [hsync, hlayer_nil, List.append_nil]
        simp only [hle, if_pos]
        refine ⟨?_, ih2, ih3, ?_⟩
        · show r.2 = visited ++ r.1.join
          rw [ih1, hvst]
        · intro Hq k c hc
          show predsIn edges (visited ++ (r.1.take k).join) c
          have := ih4 (fun c hc _ => hnqg2 c hc) k c hc
          rwa [hvst] at this
      · simp only [hle, if_neg, Bool.false_eq_true, not_false_iff]
        refine ⟨?_, ih2, ih3, ?_⟩
        · show r.2 = visited ++ (st.layer :: r.1).join
          rw [ih1, hsync]
          simp [List.append_assoc]
        · intro Hq k c hc
          have hLG : ∀ c ∈ st.layer, predsIn edges visited c :=
            processRound_layerGood adj edges q visited deg Hq
          have hLG2 := ih4 (fun c hc _ => hnqg2 c hc)
          cases k with
          | zero =>
            simp only [List.getD_cons_zero] at hc
            show predsIn edges (visited ++ ((st.layer :: r.1).take 0).join) c
            simpa using hLG c hc
          | succ k1 =>
            simp only [List.getD_cons_succ] at hc
            have := hLG2 k1 c hc
            show predsIn edges (visited ++ ((st.layer :: r.1).take (k1+1)).join) c
            rw [List.take_succ_cons]
            have hjc : (st.layer :: List.take k1 r.1).join = st.layer ++ (List.take k1 r.1).join := by
              simp
            rw [hjc, ← List.append_assoc, ← hsync]
            exact this

lemma map_id_filter (nodes : List GraphNode) (vfin : List String) :
    (nodes.filter (fun n => n.id ∉ vfin)).map (fun n => n.id) =
      (nodes.map (fun n => n.id)).filter (fun x => x ∉ vfin) := by
  induction nodes with
  | nil => simp
  | cons n rest ih =>
    by_cases h : n.id ∈ vfin
    · simpa [h] using ih
    · simpa [h] using ih

lemma visited_filter_perm (ids vfin : List String) (hids : ids.Nodup) (hv : vfin.Nodup)
    (hsub : ∀ x ∈ vfin, x ∈ ids) :
    (vfin ++ ids.filter (fun x => x ∉ vfin)).Perm ids := by
  rw [List.perm_iff_count]
  intro a
  rw [List.count_append]
  by_cases ha : a ∈ vfin
  · have h1 : vfin.count a = 1 := List.count_eq_one_of_mem hv ha
    have h2 : (ids.filter (fun x => x ∉ vfin)).count a = 0 := by
      rw [List.count_eq_zero]
      intro hmem
      have := List.mem_filter.mp hmem
      simp [ha] at this
    have h3 : ids.count a = 1 := List.count_eq_one_of_mem hids (hsub a ha)
    omega
  · have h1 : vfin.count a = 0 := List.count_eq_zero.mpr ha
    have h2 : (ids.filter (fun x => x ∉ vfin)).count a = ids.count a :=
      List.count_filter (by simpa using ha)
    omega

/-- C2 amended: when no node is tagged start, the seed queue is empty, the BFS
produces no layers at all (there is no in-degree-0 fallback), and every node
— in-degree-0 nodes included — lands in the single trailing catch-all layer,
in original input order. -/
theorem no_start_bfs_empty :
    ∀ data Ls, startQueue data = [] → assignLayersE data = .ok Ls →
      bfsLayersE data = .ok [] ∧
      Ls = (if data.nodes.isEmpty then []
            else [data.nodes.map (fun n => n.id)]) := by
  intro data Ls hsq h
  cases hb : buildMaps data with
  | error u => simp [assignLayersE, hb] at h
  | ok md =>
    simp only [assignLayersE, hb, Except.ok.injEq] at h
    have hloop : bfsLayersAndVisited data md.1 md.2 = ([], []) := by
      rw [bfsLayersAndVisited, hsq]
      rfl
    constructor
    · simp [bfsLayersE, hb, hloop]
    · rw [← h]
      rw [assignLayers, hloop]
      have hfilter : data.nodes.filter (fun n => n.id ∉ ([] : List String)) =
          data.nodes := by
        induction data.nodes with
        | nil => rfl
        | cons n rest ih => simp_all
      cases hnodes : data.nodes with
      | nil => simp
      | cons n rest =>
        rw [hnodes] at hfilter
        simp [hfilter]

/-- Witness for the C2 amended theorem at the two-node no-start graph. -/
theorem no_start_bfs_empty_witness :
    bfsLayersE exNoStart = .ok [] ∧
    ([["A", "B"]] : List (List String)) =
      (if exNoStart.nodes.isEmpty then []
       else [exNoStart.nodes.map (fun n => n.id)]) :=
  no_start_bfs_empty exNoStart [["A", "B"]] (by decide) (by decide)

/-- C3: layer assignment partitions the node set — the concatenation of all
produced layers is a permutation of the input node ids (every node in exactly
one layer, given the data-model invariant that ids are unique); and on the
three-node cycle with no start node the result is exactly one trailing
catch-all layer holding A, B, C in input order. -/
theorem assignLayers_partition :
    (∀ data Ls, assignLayersE data = .ok Ls → (idsOf data).Nodup →
      Ls.join.Perm (idsOf data)) ∧
    assignLayersE cycleGraph = .ok [["A", "B", "C"]] := by
  constructor
  · intro data Ls h hnodup
    cases hb : buildMaps data with
    | error u => simp [assignLayersE, hb] at h
    | ok md =>
      simp only [assignLayersE, hb, Except.ok.injEq] at h
      obtain ⟨hadjkeys, hadj, hdeg⟩ := buildMaps_inv hb
      obtain ⟨hv, hnd, hsub, _⟩ := bfsLoop_inv md.1 (idsOf data) data.edges hadj
        (data.nodes.length + 2) (startQueue data) [] md.2 (startQueue_subset data)
        List.nodup_nil (by simp) (fun c k hc => (hdeg c k hc).1)
        (fun c k hc => (hdeg c k hc).2)
      rw [← h]
      rw [assignLayers]
      set lv := bfsLayersAndVisited data md.1 md.2 with hlv
      have hlv2 : lv = bfsLoop md.1 (data.nodes.length + 2) (startQueue data) [] md.2 :=
        rfl
      rw [← hlv2] at hv hnd hsub
      have hjoin : lv.1.join = lv.2 := by
        rw [hv]
        simp
      have hperm := visited_filter_perm (idsOf data) lv.2 hnodup hnd hsub
      have hmapfil : (data.nodes.filter (fun n => n.id ∉ lv.2)).map (fun n => n.id) =
          (idsOf data).filter (fun x => x ∉ lv.2) := map_id_filter data.nodes lv.2
      by_cases hemp : (data.nodes.filter (fun n => n.id ∉ lv.2)).isEmpty
      · rw [if_pos hemp]
        have hfil_nil : (idsOf data).filter (fun x => x ∉ lv.2) = [] := by
          rw [← hmapfil, List.isEmpty_iff.mp hemp]
          rfl
        rw [hfil_nil, List.append_nil] at hperm
        rw [hjoin]
        exact hperm
      · rw [if_neg hemp]
        have hj : (lv.1 ++
            [(data.nodes.filter (fun n => n.id ∉ lv.2)).map (fun n => n.id)]).join =
            lv.1.join ++
              (data.nodes.filter (fun n => n.id ∉ lv.2)).map (fun n => n.id) := by
          simp
        rw [hj, hjoin, hmapfil]
        exact hperm
  · decide

/-- Witness for the C3 partition theorem at the three-node cycle. -/
theorem assignLayers_partition_witness :
    (([["A", "B", "C"]] : List (List String)).join).Perm (idsOf cycleGraph) :=
  assignLayers_partition.1 cycleGraph [["A", "B", "C"]] (by decide) (by decide)

/-- C4 counterexample: two start-tagged nodes A and B with an edge A into B
are both seeded and both end in BFS layer 0; B is reachable from a source and
is not in any catch-all layer (there is none), yet its layer index 0 is not
at least 1 + 0, the layer index of its predecessor A. -/
theorem two_starts_same_layer :
    bfsLayersE exTwoStarts = .ok [["A", "B"]] ∧
    assignLayersE exTwoStarts = .ok [["A", "B"]] ∧
    (mkE "e1" "A" "B") ∈ exTwoStarts.edges ∧
    ¬ ((0 : ℕ) ≥ 0 + 1) := by
  exact ⟨by decide, by decide, by decide, by decide⟩

/-- C4 amended: in the BFS layers, every node in a layer of index k at least 1
has every predecessor (source of an in-edge) inside the concatenation of the
strictly earlier layers, so its layer index is at least 1 + the maximum
predecessor layer index. Layer 0 — the seeded start frontier — is exempt
(start nodes are enqueued regardless of their predecessors), and so are nodes
of the trailing catch-all layer, which is outside the BFS layers. -/
theorem bfs_layer_after_preds :
    ∀ data Ls, bfsLayersE data = .ok Ls →
      ∀ k c, 1 ≤ k → c ∈ Ls.getD k [] →
        ∀ e ∈ data.edges, e.target = c → e.source ∈ (Ls.take k).join := by
  intro data Ls h k c hk hc e he htc
  cases hb : buildMaps data with
  | error u => simp [bfsLayersE, hb] at h
  | ok md =>
    simp only [bfsLayersE, hb, Except.ok.injEq] at h
    obtain ⟨hadjkeys, hadj, hdeg⟩ := buildMaps_inv hb
    obtain ⟨hsync, hnd2, hvis2, hnq2, hkeys2, hacc2, hnqg2⟩ :=
      processRound_inv md.1 (idsOf data) data.edges hadj (startQueue data) [] md.2
        (startQueue_subset data) List.nodup_nil (by simp)
        (fun c k hc => (hdeg c k hc).1) (fun c k hc => (hdeg c k hc).2)
    obtain ⟨_, _, _, ih4⟩ := bfsLoop_inv md.1 (idsOf data) data.edges hadj
      (data.nodes.length + 1)
      (processRound md.1 (startQueue data) [] md.2).nextQ
      (processRound md.1 (startQueue data) [] md.2).visited
      (processRound md.1 (startQueue data) [] md.2).deg hnq2 hnd2 hvis2 hkeys2 hacc2
    have hlg := ih4 (fun c hc _ => hnqg2 c hc)
    set st := processRound md.1 (startQueue data) [] md.2 with hstdef
    set r := bfsLoop md.1 (data.nodes.length + 1) st.nextQ st.visited st.deg with hrdef
    have hunf : bfsLayersAndVisited data md.1 md.2 =
        (if (startQueue data).isEmpty then (([], []) : List (List String) × List String)
         else ((if st.layer.isEmpty then r.1 else st.layer :: r.1), r.2)) := rfl
    by_cases hq0 : (startQueue data).isEmpty
    · rw [hunf, if_pos hq0] at h
      have h2 : ([] : List (List String)) = Ls := h
      rw [← h2] at hc
      simp at hc
    · rw [hunf, if_neg hq0] at h
      have h2 : (if st.layer.isEmpty then r.1 else st.layer :: r.1) = Ls := h
      by_cases hle : st.layer.isEmpty
      · rw [if_pos hle] at h2
        subst h2
        have hthis := hlg k c hc e he htc
        have hlnil : st.layer = [] := List.isEmpty_iff.mp hle
        rw [hsync, hlnil] at hthis
        simpa using hthis
      · rw [if_neg hle] at h2
        cases k with
        | zero => omega
        | succ k1 =>
          subst h2
          simp only [List.getD_cons_succ] at hc
          have hthis := hlg k1 c hc e he htc
          rw [List.take_succ_cons]
          have hj : (st.layer :: List.take k1 r.1).join =
              st.layer ++ (List.take k1 r.1).join := by simp
          rw [hj]
          rw [hsync] at hthis
          simpa using hthis

/-- Witness for the C4 amended theorem: in the start-to-process chain, the
process node X is in layer 1 and its predecessor S is in the layers before
it. -/
theorem bfs_layer_after_preds_witness :
    (mkE "e1" "S" "X").source ∈ (([["S"], ["X"]] : List (List String)).take 1).join :=
  bfs_layer_after_preds exStartChain [["S"], ["X"]] (by decide) 1 "X" (by decide)
    (by decide) (mkE "e1" "S" "X") (by decide) (by decide)

lemma minLayerWidthOf_nonneg (cs : CanvasSize) : 0 ≤ minLayerWidthOf cs := by
  unfold minLayerWidthOf
  split <;> norm_num

lemma foldl_place_col (x startY eff : ℚ) (hx : 60 ≤ x) :
    ∀ (l : List (ℕ × String)) (pos : PosMap), (∀ kv ∈ pos, 60 ≤ kv.2.1) →
      ∀ kv ∈ l.foldl
        (fun p pr => aset p pr.2 (x, startY + (pr.1 : ℚ) * eff)) pos, 60 ≤ kv.2.1 := by
  intro l
  induction l with
  | nil => intro pos h; exact h
  | cons b rest ih =>
    intro pos h
    exact ih (aset pos b.2 (x, startY + (b.1 : ℚ) * eff)) (forall_mem_aset h hx)

lemma placeColumn_x_ge (margin centerY availableHeight optimalNodeSpacing x : ℚ)
    (layerIndex L : ℕ) (colNodes : List String) (pos : PosMap)
    (hpos : ∀ kv ∈ pos, 60 ≤ kv.2.1) (hx : 60 ≤ x) :
    ∀ kv ∈ placeColumn margin centerY availableHeight optimalNodeSpacing x
      layerIndex L colNodes pos, 60 ≤ kv.2.1 := by
  unfold placeColumn
  match colNodes with
  | [n] => exact forall_mem_aset hpos hx
  | [] => exact foldl_place_col _ _ _ hx _ pos hpos
  | n1 :: n2 :: rest => exact foldl_place_col _ _ _ hx _ pos hpos

lemma optimalLayerWidthOf_nonneg (cs : CanvasSize) (L : ℕ) (aw : ℚ) :
    0 ≤ optimalLayerWidthOf cs L aw :=
  le_trans (minLayerWidthOf_nonneg cs) (le_max_left _ _)

lemma layerAdvanceX_ge (cs : CanvasSize) (L layerIndex : ℕ) (aw currentX : ℚ) :
    currentX ≤ layerAdvanceX cs L layerIndex aw currentX := by
  unfold layerAdvanceX
  split
  · exact le_rfl
  · have h0 := minLayerWidthOf_nonneg cs
    have h1 : minLayerWidthOf cs ≤ max (minLayerWidthOf cs)
        (min (if 0 < L - layerIndex - 1 then
            max (minLayerWidthOf cs) ((aw - 80 - (currentX - 60)) / ((L - layerIndex - 1 : ℕ) : ℚ))
          else optimalLayerWidthOf cs L aw)
          (maxLayerWidthOf cs * (12/10))) := le_max_left _ _
    linarith

lemma foldl_pos_preserve {β : Type} (P : String × (ℚ × ℚ) → Prop)
    (g : PosMap → β → PosMap)
    (hstep : ∀ pos b, (∀ kv ∈ pos, P kv) → ∀ kv ∈ g pos b, P kv) :
    ∀ (l : List β) (pos : PosMap), (∀ kv ∈ pos, P kv) → ∀ kv ∈ l.foldl g pos, P kv := by
  intro l
  induction l with
  | nil => intro pos h; exact h
  | cons b rest ih => intro pos h; exact ih (g pos b) (hstep pos b h)

lemma placeLayerNodes_x_ge (data : GraphData) (cs : CanvasSize) (L : ℕ)
    (width height currentX : ℚ) (positions : PosMap) (layerIndex : ℕ)
    (layer : List String) (hx : 60 ≤ currentX)
    (hpos : ∀ kv ∈ positions, 60 ≤ kv.2.1) :
    ∀ kv ∈ placeLayerNodes data cs L width height currentX positions layerIndex layer,
      60 ≤ kv.2.1 := by
  unfold placeLayerNodes
  apply foldl_pos_preserve (fun kv => 60 ≤ kv.2.1)
  · intro pos col hp
    apply placeColumn_x_ge _ _ _ _ _ _ _ _ _ hp
    have hc : (0:ℚ) ≤ (col : ℚ) := Nat.cast_nonneg col
    have ho := optimalLayerWidthOf_nonneg cs L (width - 2 * 60)
    have hm : (0:ℚ) ≤ (if 1 < (layer.length + maxNodesPerColOf cs (height - 2 * 60) - 1) /
        maxNodesPerColOf cs (height - 2 * 60) then (8:ℚ)/10 else 1) := by
      split <;> norm_num
    have hprod := mul_nonneg (mul_nonneg hc ho) hm
    linarith
  · exact hpos

lemma placeLayerStep_inv (data : GraphData) (cs : CanvasSize) (L : ℕ) (width height : ℚ)
    (ps : PlaceState) (pr : ℕ × List String)
    (hx : 60 ≤ ps.currentX) (hpos : ∀ kv ∈ ps.positions, 60 ≤ kv.2.1) :
    60 ≤ (placeLayerStep data cs L width height ps pr).currentX ∧
    ∀ kv ∈ (placeLayerStep data cs L width height ps pr).positions, 60 ≤ kv.2.1 := by
  unfold placeLayerStep
  by_cases he : pr.2.isEmpty
  · rw [if_pos he]
    exact ⟨hx, hpos⟩
  · rw [if_neg he]
    refine ⟨le_trans hx (layerAdvanceX_ge cs L pr.1 (width - 2 * 60) ps.currentX), ?_⟩
    exact placeLayerNodes_x_ge data cs L width height ps.currentX ps.positions pr.1 pr.2
      hx hpos

lemma foldl_place_preserve {β : Type} (P : PlaceState → Prop)
    (g : PlaceState → β → PlaceState)
    (hstep : ∀ ps b, P ps → P (g ps b)) :
    ∀ (l : List β) (ps : PlaceState), P ps → P (l.foldl g ps) := by
  intro l
  induction l with
  | nil => intro ps h; exact h
  | cons b rest ih => intro ps h; exact ih (g ps b) (hstep ps b h)

lemma placeAll_x_ge (data : GraphData) (cs : CanvasSize) (layers : List (List String))
    (width height : ℚ) :
    ∀ kv ∈ placeAll data cs layers width height, 60 ≤ kv.2.1 := by
  unfold placeAll
  have := foldl_place_preserve
    (fun ps => 60 ≤ ps.currentX ∧ ∀ kv ∈ ps.positions, 60 ≤ kv.2.1)
    (placeLayerStep data cs layers.length width height)
    (fun ps b h => placeLayerStep_inv data cs layers.length width height ps b h.1 h.2)
    layers.enum ⟨60, []⟩ ⟨le_rfl, by simp⟩
  exact this.2

/-- C6 amended: every placed node satisfies the left inset — its x coordinate
is at least the margin of 60 (currentX starts at the margin and only grows,
and column offsets are non-negative). The remaining three inset bounds of the
claim do not hold: a long chain walks x past width - margin and single-node
layers place y outside the vertical margins. -/
theorem placement_left_inset :
    ∀ data cs pm w h, calculatePositionsE data cs = .ok (pm, w, h) →
      ∀ id x y, alookup pm id = some (x, y) → 60 ≤ x := by
  intro data cs pm w h hok id x y hl
  cases hw : getCanvasDimensions data cs with
  | error u => simp [calculatePositionsE, hw] at hok
  | ok wh =>
    cases hb : buildMaps data with
    | error u => simp [calculatePositionsE, hw, hb] at hok
    | ok md =>
      simp only [calculatePositionsE, hw, hb, Except.ok.injEq, Prod.mk.injEq] at hok
      have hpm : placeAll data cs (assignLayers data md.1 md.2) wh.1 wh.2 = pm := hok.1
      have hmem := mem_of_alookup pm id (x, y) hl
      rw [← hpm] at hmem
      exact placeAll_x_ge data cs (assignLayers data md.1 md.2) wh.1 wh.2 _ hmem

/-- Witness for the C6 amended theorem: the start-to-process chain on the
automatic canvas places S at x = 60 and X at x = 324, both at least 60. -/
theorem placement_left_inset_witness : (60 : ℚ) ≤ 324 :=
  placement_left_inset exStartChain .auto [("S", 60, 220), ("X", 324, 220)] 800 440
    (by decide) "X" 324 220 (by decide)

/-- C10: when either endpoint of an edge has no resolved position, the
arrow-anchor computation returns the concrete record x = 0, y = 0, angle = 0,
while the path computation for the same edge returns the empty path — a
skipped edge still gets an anchor at the canvas origin. -/
theorem arrow_origin_on_unresolved :
    ∀ (data : GraphData) (positions : String → Option (ℝ × ℝ)) (cs : CanvasSize)
      (edge : GraphEdge) (ei : Option ℕ),
      positions edge.source = Option.none ∨ positions edge.target = Option.none →
      getArrowPosition positions edge = ⟨0, 0, 0⟩ ∧
      getEdgePath data positions cs edge ei = .empty := by
  intro data positions cs edge ei h
  rcases h with h | h
  · cases h2 : positions edge.target <;>
      exact ⟨by simp [getArrowPosition, h, h2], by simp [getEdgePath, h, h2]⟩
  · cases h2 : positions edge.source <;>
      exact ⟨by simp [getArrowPosition, h, h2], by simp [getEdgePath, h, h2]⟩

/-- Witness for C10 at an empty position table. -/
theorem arrow_origin_on_unresolved_witness :
    getArrowPosition (fun _ => Option.none) (mkE "e1" "A" "B") = ⟨0, 0, 0⟩ ∧
    getEdgePath exStartEnd (fun _ => Option.none) .auto (mkE "e1" "A" "B")
      Option.none = .empty :=
  arrow_origin_on_unresolved exStartEnd (fun _ => Option.none) .auto
    (mkE "e1" "A" "B") Option.none (Or.inl rfl)

lemma sqrt_val (v : ℝ) (hv : 0 ≤ v) (x : ℝ) (hx : x = v ^ 2) : Real.sqrt x = v := by
  rw [hx]
  exact Real.sqrt_sq hv

lemma jround_intCast (n : ℤ) : jround (n : ℝ) = n := by
  unfold jround
  rw [Int.floor_eq_iff]
  constructor <;> norm_num

/-- C9 amended: for resolved, non-coincident endpoints the arrowhead anchor
sits on the segment at ratio max(0.7, (d - 30) / d), so its distance from the
target center is exactly min(0.3 d, 30), independent of any node radius; it
is therefore not guaranteed to clear the target boundary (it is inside the
target whenever min(0.3 d, 30) does not exceed the rendered radius). -/
theorem arrow_anchor_distance :
    ∀ (positions : String → Option (ℝ × ℝ)) (edge : GraphEdge) (sp tp : ℝ × ℝ),
      positions edge.source = some sp → positions edge.target = some tp →
      sp ≠ tp →
      dist2 ((getArrowPosition positions edge).x, (getArrowPosition positions edge).y) tp
        = min ((3 / 10) * dist2 sp tp) 30 := by
  intro positions edge sp tp hsp htp hne
  set dx := tp.1 - sp.1 with hdx
  set dy := tp.2 - sp.2 with hdy
  set d := Real.sqrt (dx * dx + dy * dy) with hd
  have hxproj : (getArrowPosition positions edge).x =
      sp.1 + dx * max (7/10) ((d - 30) / d) := by
    unfold getArrowPosition
    rw [hsp, htp]
  have hyproj : (getArrowPosition positions edge).y =
      sp.2 + dy * max (7/10) ((d - 30) / d) := by
    unfold getArrowPosition
    rw [hsp, htp]
  have hd_pos : 0 < d := by
    rw [hd]
    apply Real.sqrt_pos.mpr
    have hne2 : dx ≠ 0 ∨ dy ≠ 0 := by
      by_contra hcon
      push_neg at hcon
      apply hne
      have h1 : tp.1 = sp.1 := by
        have := hcon.1
        rw [hdx] at this
        linarith
      have h2 : tp.2 = sp.2 := by
        have := hcon.2
        rw [hdy] at this
        linarith
      exact Prod.ext h1.symm h2.symm
    rcases hne2 with h | h
    · have h1 : 0 < dx * dx := mul_self_pos.mpr h
      have h2 : 0 ≤ dy * dy := mul_self_nonneg dy
      linarith
    · have h1 : 0 < dy * dy := mul_self_pos.mpr h
      have h2 : 0 ≤ dx * dx := mul_self_nonneg dx
      linarith
  set m := min ((3:ℝ)/10) (30 / d) with hm
  have hratio : max ((7:ℝ)/10) ((d - 30) / d) = 1 - m := by
    have h1 : (d - 30) / d = 1 - 30 / d := by
      field_simp
    rw [h1, show (7:ℝ)/10 = 1 - 3/10 by norm_num, max_sub_sub_left, hm]
  have hm_nonneg : 0 ≤ m := by
    rw [hm]
    refine le_min (by norm_num) ?_
    positivity
  have h1 : tp.1 - (getArrowPosition positions edge).x = dx * m := by
    rw [hxproj, hratio]
    ring
  have h2 : tp.2 - (getArrowPosition positions edge).y = dy * m := by
    rw [hyproj, hratio]
    ring
  have hfinal : dist2 ((getArrowPosition positions edge).x,
      (getArrowPosition positions edge).y) tp =
      Real.sqrt ((dx * m) * (dx * m) + (dy * m) * (dy * m)) := by
    unfold dist2
    dsimp only
    rw [h1, h2]
  rw [hfinal]
  have hmul : (dx * m) * (dx * m) + (dy * m) * (dy * m) =
      (m * m) * (dx * dx + dy * dy) := by ring
  rw [hmul, Real.sqrt_mul (mul_self_nonneg m), Real.sqrt_mul_self hm_nonneg, ← hd]
  have hdist : dist2 sp tp = d := rfl
  rw [hdist, hm, min_mul_of_nonneg _ _ (le_of_lt hd_pos),
    div_mul_cancel₀ (30:ℝ) (ne_of_gt hd_pos)]

/-- Witness for the C9 amended theorem at endpoints ten units apart. -/
theorem arrow_anchor_distance_witness :
    dist2 ((getArrowPosition posAB (mkE "e1" "A" "B")).x,
      (getArrowPosition posAB (mkE "e1" "A" "B")).y) (10, 0) =
      min ((3 / 10) * dist2 (0, 0) (10, 0)) 30 :=
  arrow_anchor_distance posAB (mkE "e1" "A" "B") (0, 0) (10, 0) rfl rfl
    (by simp [Prod.ext_iff])

/-- C9 counterexample: with process-type endpoints at distance 10 (target
radius 28 under the automatic multiplier 1.0), the anchor lands at (7, 0),
only 3 units from the target center — not strictly greater than the 28-unit
rendered radius, so the arrow is drawn inside the target node. -/
theorem arrow_anchor_inside_target :
    (getArrowPosition posAB (mkE "e1" "A" "B")).x = 7 ∧
    (getArrowPosition posAB (mkE "e1" "A" "B")).y = 0 ∧
    dist2 (7, 0) (10, 0) = 3 ∧
    getNodeSize "process" = 28 ∧ sizeMultiplierQ .auto = 1 ∧
    ¬ ((3 : ℝ) > 28) := by
  have hs : Real.sqrt (((10:ℝ) - 0) * ((10:ℝ) - 0) + ((0:ℝ) - 0) * ((0:ℝ) - 0)) = 10 :=
    sqrt_val 10 (by norm_num) _ (by norm_num)
  have hxe : (getArrowPosition posAB (mkE "e1" "A" "B")).x =
      (0:ℝ) + ((10:ℝ) - 0) * max (7/10) ((Real.sqrt (((10:ℝ) - 0) * ((10:ℝ) - 0) +
        ((0:ℝ) - 0) * ((0:ℝ) - 0)) - 30) / Real.sqrt (((10:ℝ) - 0) * ((10:ℝ) - 0) +
        ((0:ℝ) - 0) * ((0:ℝ) - 0))) := by
    unfold getArrowPosition
    rw [show posAB (mkE "e1" "A" "B").source = some ((0:ℝ), (0:ℝ)) from rfl,
      show posAB (mkE "e1" "A" "B").target = some ((10:ℝ), (0:ℝ)) from rfl]
  have hye : (getArrowPosition posAB (mkE "e1" "A" "B")).y =
      (0:ℝ) + ((0:ℝ) - 0) * max (7/10) ((Real.sqrt (((10:ℝ) - 0) * ((10:ℝ) - 0) +
        ((0:ℝ) - 0) * ((0:ℝ) - 0)) - 30) / Real.sqrt (((10:ℝ) - 0) * ((10:ℝ) - 0) +
        ((0:ℝ) - 0) * ((0:ℝ) - 0))) := by
    unfold getArrowPosition
    rw [show posAB (mkE "e1" "A" "B").source = some ((0:ℝ), (0:ℝ)) from rfl,
      show posAB (mkE "e1" "A" "B").target = some ((10:ℝ), (0:ℝ)) from rfl]
  have hmax : max ((7:ℝ)/10) (((10:ℝ) - 30) / 10) = 7/10 := by
    apply max_eq_left
    norm_num
  refine ⟨?_, ?_, ?_, by decide, by decide, by norm_num⟩
  · rw [hxe, hs, hmax]
    norm_num
  · rw [hye, hs, hmax]
    norm_num
  · unfold dist2
    dsimp only
    exact sqrt_val 3 (by norm_num) _ (by norm_num)

/-- C8 amended: whenever both endpoints and both endpoint nodes resolve, the
centers are not coincident, and the boundary-trimmed (and parallel-offset)
endpoints lie closer than the fixed 50-unit threshold, getEdgePath emits a
straight segment between the trimmed endpoints. Whether two nodes placed 10
units apart fall under the threshold depends on the rendered radii: the
trimmed length is |10 - sourceRadius - targetRadius|, under 50 for
process-process endpoints but 60 (a quadratic curve) for start-end
endpoints. -/
theorem route_straight_when_close :
    ∀ (data : GraphData) (positions : String → Option (ℝ × ℝ)) (cs : CanvasSize)
      (edge : GraphEdge) (ei : Option ℕ) (sp tp : ℝ × ℝ) (sn tn : GraphNode)
      (d sR tR oX oY sX sY eX eY : ℝ),
      positions edge.source = some sp → positions edge.target = some tp →
      data.nodes.find? (fun n => n.id = edge.source) = some sn →
      data.nodes.find? (fun n => n.id = edge.target) = some tn →
      d = Real.sqrt ((tp.1 - sp.1) * (tp.1 - sp.1) + (tp.2 - sp.2) * (tp.2 - sp.2)) →
      d ≠ 0 →
      sR = (jround ((getNodeSize sn.type * sizeMultiplierQ cs : ℚ) : ℝ) : ℝ) →
      tR = (jround ((getNodeSize tn.type * sizeMultiplierQ cs : ℚ) : ℝ) : ℝ) →
      oX = (edgeOffset data sp tp edge ei).1 →
      oY = (edgeOffset data sp tp edge ei).2 →
      sX = sp.1 + (tp.1 - sp.1) / d * sR + oX →
      sY = sp.2 + (tp.2 - sp.2) / d * sR + oY →
      eX = tp.1 - (tp.1 - sp.1) / d * tR + oX →
      eY = tp.2 - (tp.2 - sp.2) / d * tR + oY →
      Real.sqrt ((eX - sX) * (eX - sX) + (eY - sY) * (eY - sY)) < 50 →
      getEdgePath data positions cs edge ei = .line (sX, sY) (eX, eY) := by
  intro data positions cs edge ei sp tp sn tn d sR tR oX oY sX sY eX eY
  intro hsp htp hsn htn hd hdne hsR htR hoX hoY hsX hsY heX heY hclose
  subst hd hsR htR hoX hoY hsX hsY heX heY
  unfold getEdgePath
  rw [hsp, htp]
  simp only [hsn, htn]
  rw [if_neg hdne, if_pos hclose]

/-- Witness for the C8 amended theorem: two process nodes ten units apart
(radius 28 each under the automatic multiplier) have trimmed endpoints 46
units apart, and the routed path is the straight segment from (28, 0) to
(-18, 0). -/
theorem route_straight_when_close_witness :
    getEdgePath exProcPair posAB .auto (mkE "e1" "A" "B") Option.none =
      .line (28, 0) (-18, 0) := by
  have hrad : ((28:ℝ)) = (jround ((getNodeSize (mkN "A" "process").type *
      sizeMultiplierQ CanvasSize.auto : ℚ) : ℝ) : ℝ) := by
    rw [show ((getNodeSize (mkN "A" "process").type *
        sizeMultiplierQ CanvasSize.auto : ℚ) : ℝ) = ((28:ℤ) : ℝ) by
      rw [show (getNodeSize (mkN "A" "process").type *
        sizeMultiplierQ CanvasSize.auto : ℚ) = ((28:ℤ) : ℚ) by decide]
      norm_num, jround_intCast]
    norm_num
  have hoff : edgeOffset exProcPair ((0:ℝ), 0) ((10:ℝ), 0) (mkE "e1" "A" "B")
      Option.none = (0, 0) := by
    unfold edgeOffset
    rw [if_neg]
    intro hcon
    exact hcon.2 rfl
  have hd10 : Real.sqrt ((((10:ℝ), (0:ℝ)).1 - (((0:ℝ), (0:ℝ)) : ℝ × ℝ).1) *
      ((((10:ℝ), (0:ℝ)) : ℝ × ℝ).1 - (((0:ℝ), (0:ℝ)) : ℝ × ℝ).1) +
      ((((10:ℝ), (0:ℝ)) : ℝ × ℝ).2 - (((0:ℝ), (0:ℝ)) : ℝ × ℝ).2) *
      ((((10:ℝ), (0:ℝ)) : ℝ × ℝ).2 - (((0:ℝ), (0:ℝ)) : ℝ × ℝ).2)) = 10 :=
    sqrt_val 10 (by norm_num) _ (by norm_num)
  refine route_straight_when_close exProcPair posAB .auto (mkE "e1" "A" "B")
    Option.none ((0:ℝ), 0) ((10:ℝ), 0) (mkN "A" "process") (mkN "B" "process")
    10 28 28 0 0 28 0 (-18) 0 rfl rfl rfl rfl ?_ (by norm_num) hrad hrad
    (by rw [hoff]) (by rw [hoff]) (by norm_num) (by norm_num) (by norm_num)
    (by norm_num) ?_
  · exact hd10.symm
  · rw [show ((-18:ℝ) - 28) * ((-18:ℝ) - 28) + ((0:ℝ) - 0) * ((0:ℝ) - 0) =
      46 ^ 2 by norm_num, Real.sqrt_sq (by norm_num)]
    norm_num

/-- C8 counterexample: a start node and an end node placed exactly ten units
apart (radius 35 each under the automatic multiplier) have trimmed endpoints
60 units apart — at or above the 50-unit threshold — so getEdgePath emits a
quadratic curve, not a straight line, refuting the claim that nodes 10 units
apart always get a straight segment regardless of type. -/
theorem short_edge_curved_for_large_radii :
    getEdgePath exStartEnd posAB .auto (mkE "e1" "A" "B") (some 0) =
      .quad (35, 0) (5, 72/5) (-25, 0) := by
  have hrad : ((jround ((getNodeSize (mkN "A" "start").type *
      sizeMultiplierQ CanvasSize.auto : ℚ) : ℝ) : ℝ)) = 35 := by
    rw [show ((getNodeSize (mkN "A" "start").type *
        sizeMultiplierQ CanvasSize.auto : ℚ) : ℝ) = ((35:ℤ) : ℝ) by
      rw [show (getNodeSize (mkN "A" "start").type *
        sizeMultiplierQ CanvasSize.auto : ℚ) = ((35:ℤ) : ℚ) by decide]
      norm_num, jround_intCast]
    norm_num
  have hrad2 : ((jround ((getNodeSize (mkN "B" "end").type *
      sizeMultiplierQ CanvasSize.auto : ℚ) : ℝ) : ℝ)) = 35 := by
    rw [show ((getNodeSize (mkN "B" "end").type *
        sizeMultiplierQ CanvasSize.auto : ℚ) : ℝ) = ((35:ℤ) : ℝ) by
      rw [show (getNodeSize (mkN "B" "end").type *
        sizeMultiplierQ CanvasSize.auto : ℚ) = ((35:ℤ) : ℚ) by decide]
      norm_num, jround_intCast]
    norm_num
  have hoff : edgeOffset exStartEnd ((0:ℝ), 0) ((10:ℝ), 0) (mkE "e1" "A" "B")
      (some 0) = (0, 0) := by
    unfold edgeOffset
    rw [if_neg]
    intro hcon
    have : (1:ℕ) < 1 := by
      have := hcon.1
      simpa [exStartEnd, mkE, mkN] using this
    omega
  unfold getEdgePath
  rw [show posAB (mkE "e1" "A" "B").source = some ((0:ℝ), (0:ℝ)) from rfl,
    show posAB (mkE "e1" "A" "B").target = some ((10:ℝ), (0:ℝ)) from rfl]
  simp only [show exStartEnd.nodes.find? (fun n => n.id = (mkE "e1" "A" "B").source) =
      some (mkN "A" "start") from rfl,
    show exStartEnd.nodes.find? (fun n => n.id = (mkE "e1" "A" "B").target) =
      some (mkN "B" "end") from rfl]
  rw [hoff]
  simp only [hrad, hrad2]
  have hd10 : Real.sqrt ((((10:ℝ)) - 0) * (((10:ℝ)) - 0) +
      (((0:ℝ)) - 0) * (((0:ℝ)) - 0)) = 10 := sqrt_val 10 (by norm_num) _ (by norm_num)
  simp only [hd10]
  rw [if_neg (by norm_num : ¬ ((10:ℝ) = 0))]
  have hstart : ((0:ℝ) + (10 - 0) / 10 * 35 + ((0:ℝ), (0:ℝ)).1) = 35 := by norm_num
  have hend : ((10:ℝ) - (10 - 0) / 10 * 35 + ((0:ℝ), (0:ℝ)).1) = -25 := by norm_num
  have hstartY : ((0:ℝ) + (0 - 0) / 10 * 35 + ((0:ℝ), (0:ℝ)).2) = 0 := by norm_num
  have hendY : ((0:ℝ) - (0 - 0) / 10 * 35 + ((0:ℝ), (0:ℝ)).2) = 0 := by norm_num
  simp only [hstart, hend, hstartY, hendY]
  have hd60 : Real.sqrt (((-25:ℝ) - 35) * ((-25:ℝ) - 35) +
      ((0:ℝ) - 0) * ((0:ℝ) - 0)) = 60 := sqrt_val 60 (by norm_num) _ (by norm_num)
  simp only [hd60]
  rw [if_neg (by norm_num : ¬ ((60:ℝ) < 50))]
  rw [if_neg (by simp : ¬ (|(-25:ℝ) - 35| < |(0:ℝ) - 0|))]
  rw [if_neg (by norm_num : ¬ ((0:ℝ) < 0))]
  norm_num

end Theorems

end FlowViz
